import Mathlib

/-!
Verification of the story-generation and source-transform core of
`vite-plugin-experimental-storybook-devtools`.

Strings are modelled as lists of UTF-16 code units (`List Nat`), which is
what JavaScript string operations (`charCodeAt`, `charAt`, regexes over
ASCII classes) act on.  Each definition below is a shallow embedding of the
corresponding function in `src/utils/story-generator.ts` or
`src/transform.ts`; JavaScript regex-based operations are embedded as
explicit left-to-right scanners with the same match/replace semantics.
-/

namespace SBDev

/-- Code units of a Lean string literal, used to write concrete JS strings. -/
def js (s : String) : List Nat := s.toList.map Char.toNat

/-- The JavaScript `\s` character class (whitespace, as used by `\s`,
`trim`, `trimEnd`, `split(/\s+/)`). -/
def isJsWs (c : Nat) : Bool :=
  c == 9 || c == 10 || c == 11 || c == 12 || c == 13 || c == 32 ||
  c == 160 || c == 5760 || (8192 ≤ c && c ≤ 8202) || c == 8232 ||
  c == 8233 || c == 8239 || c == 8287 || c == 12288 || c == 65279

/-- ASCII digit. -/
def isDigitC (c : Nat) : Bool := 48 ≤ c && c ≤ 57

/-- ASCII uppercase letter. -/
def isUpperC (c : Nat) : Bool := 65 ≤ c && c ≤ 90

/-- ASCII lowercase letter. -/
def isLowerC (c : Nat) : Bool := 97 ≤ c && c ≤ 122

/-- ASCII letter (`[a-zA-Z]`). -/
def isLetterC (c : Nat) : Bool := isUpperC c || isLowerC c

/-- `[a-zA-Z0-9]`. -/
def isAlnumC (c : Nat) : Bool := isLetterC c || isDigitC c

/-- The JS `\w` class `[A-Za-z0-9_]`. -/
def isWordC (c : Nat) : Bool := isAlnumC c || c == 95

/-- `String.prototype.toUpperCase` on one code unit (the inputs this model
feeds it are ASCII alphanumerics, where JS and ASCII case mapping agree). -/
def jsUpper (c : Nat) : Nat := if 97 ≤ c ∧ c ≤ 122 then c - 32 else c

/-- `String.prototype.toLowerCase` on one code unit (ASCII fragment). -/
def jsLower (c : Nat) : Nat := if 65 ≤ c ∧ c ≤ 90 then c + 32 else c

/-- JS `trim` (strip `\s` from both ends). -/
def jsTrim (s : List Nat) : List Nat :=
  ((s.dropWhile isJsWs).reverse.dropWhile isJsWs).reverse

/-- JS `trimEnd` (strip `\s` from the end only). -/
def jsTrimEnd (s : List Nat) : List Nat :=
  (s.reverse.dropWhile isJsWs).reverse

/-- Decimal digits of a natural number (JS `String(n)` / template `${n}`). -/
def natDigits (n : Nat) : List Nat :=
  (Nat.toDigits 10 n).map Char.toNat

/-- `needle` occurs as a contiguous substring of `hay`
(JS `String.prototype.includes`). -/
def containsSubstr (hay needle : List Nat) : Bool :=
  match hay with
  | [] => needle.isEmpty
  | _ :: t => needle.isPrefixOf hay || containsSubstr t needle

/- ### `toValidStoryName` (story-generator.ts lines 119-127)

```js
return name
  .replace(/[^a-zA-Z0-9\s]/g, '')
  .split(/\s+/)
  .map(word => word.charAt(0).toUpperCase() + word.slice(1).toLowerCase())
  .join('')
  || 'Default'
```
-/

/-- One word of the `split(/\s+/)` / capitalize pipeline:
`word.charAt(0).toUpperCase() + word.slice(1).toLowerCase()`. -/
def capWord : List Nat → List Nat
  | [] => []
  | c :: cs => jsUpper c :: cs.map jsLower

/- `split(/\s+/)` in JS semantics: separators are maximal runs of
whitespace; a leading (trailing) separator contributes an empty piece;
the empty string splits to `[""]`.  `splitWsAcc` accumulates the current
piece (reversed); `splitWsSkip` is in the middle of a separator run. -/
mutual

def splitWsAcc : List Nat → List Nat → List (List Nat)
  | [], acc => [acc.reverse]
  | c :: cs, acc =>
    if isJsWs c then acc.reverse :: splitWsSkip cs
    else splitWsAcc cs (c :: acc)

def splitWsSkip : List Nat → List (List Nat)
  | [] => [[]]
  | c :: cs => if isJsWs c then splitWsSkip cs else splitWsAcc cs [c]

end

def splitWs (s : List Nat) : List (List Nat) := splitWsAcc s []

/-- `toValidStoryName` from the source: strip everything outside
`[a-zA-Z0-9\s]`, split on whitespace, capitalize each word and lowercase
its tail, concatenate; empty result falls back to `"Default"`. -/
def toValidStoryName (name : List Nat) : List Nat :=
  let stripped := name.filter (fun c => isAlnumC c || isJsWs c)
  let joined := ((splitWs stripped).map capWord).flatten
  if joined.isEmpty then js "Default" else joined

/- ### `generateStoryName` (story-generator.ts lines 719-735) and the
serialized-value data model (`frameworks/types` / RPC payload shape). -/

/-- The serialized-props value tree produced by the runtime value
serializer: JSON primitives, tagged JSX records (`__isJSX`), tagged
function placeholders (`__isFunction`), arrays and plain objects. -/
inductive SerializedValue where
  | strV (s : List Nat)
  | numV (n : Int)
  | boolV (b : Bool)
  | nullV
  | undefinedV
  | jsxV (source : List Nat) (componentRefs : List (List Nat))
  | funcV (name : List Nat)
  | arrV (items : List SerializedValue)
  | objV (fields : List (List Nat × SerializedValue))
deriving Repr

/-- A serialized props bag: ordered string-keyed mapping. -/
abbrev SerializedProps := List (List Nat × SerializedValue)

/-- First binding of key `k` (JS object property lookup; keys unique). -/
def lookupProp (props : SerializedProps) (k : List Nat) : Option SerializedValue :=
  match props.find? (fun kv => kv.fst == k) with
  | some kv => some kv.snd
  | none => none

/-- `propName in props && typeof props[propName] === 'string'`. -/
def stringAt (props : SerializedProps) (k : List Nat) : Option (List Nat) :=
  match lookupProp props k with
  | some (.strV v) => some v
  | _ => none

/-- `capitalizeFirst` from the source:
`str.charAt(0).toUpperCase() + str.slice(1)`. -/
def capitalizeFirst : List Nat → List Nat
  | [] => []
  | c :: cs => jsUpper c :: cs

/-- The `meaningfulProps` priority list of `generateStoryName`
(exactly as in the source: six keys). -/
def meaningfulProps : List (List Nat) :=
  [js "variant", js "type", js "size", js "mode", js "status", js "kind"]

/-- `generateStoryName`: first meaningful prop whose value is a string,
capitalized; otherwise the literal `"Snapshot"`. -/
def generateStoryName (props : SerializedProps) : List Nat :=
  match meaningfulProps.findSome? (stringAt props) with
  | some v => capitalizeFirst v
  | none => js "Snapshot"

/- ### `createHash` (transform.ts lines 10-18)

```js
let hash = 0
for (let i = 0; i < data.length; i++) {
  const char = data.charCodeAt(i)
  hash = (hash << 5) - hash + char
  hash = hash & hash // Convert to 32-bit integer
}
return Math.abs(hash).toString(36)
```
-/

/-- JS `ToInt32` conversion (`x | 0`, `x & x`, operand coercion of `<<`). -/
def toInt32 (n : Int) : Int := ((n + 2 ^ 31) % 2 ^ 32) - 2 ^ 31

/-- One iteration of the hash loop: `hash = ((hash << 5) - hash + c) & hash`
style 32-bit rolling update. -/
def hashStep (h : Int) (c : Nat) : Int :=
  toInt32 (toInt32 (h * 32) - h + (c : Int))

/-- The signed 32-bit accumulator after the loop. -/
def hashAcc (s : List Nat) : Int := s.foldl hashStep 0

/-- Digits `0-9a-z` for `toString(36)`. -/
def base36Digit (d : Nat) : Nat := if d < 10 then 48 + d else 87 + d

/-- Fuel-indexed digit loop; fuel `n` always suffices for value `n`. -/
def base36Go : Nat → Nat → List Nat → List Nat
  | _, 0, acc => acc
  | 0, _ + 1, acc => acc
  | f + 1, n + 1, acc =>
    base36Go f ((n + 1) / 36) (base36Digit ((n + 1) % 36) :: acc)

/-- `Nat` to base-36 string, `Number.prototype.toString(36)` for integers. -/
def natToBase36 (n : Nat) : List Nat :=
  if n = 0 then [48] else base36Go n n []

/-- `createHash` from the source. -/
def createHash (data : List Nat) : List Nat :=
  natToBase36 (hashAcc data).natAbs

/-- The `sourceId` computed by `wrapComponent`:
`createHash(filePath + ':' + componentName)`. -/
def sourceId (filePath componentName : List Nat) : List Nat :=
  createHash (filePath ++ [58] ++ componentName)

end SBDev

namespace SBDev

/-! ### Facts about `toValidStoryName` (claim C1) -/

theorem jsUpper_jsUpper (c : Nat) : jsUpper (jsUpper c) = jsUpper c := by
  unfold jsUpper
  split
  · split <;> omega
  · rfl

theorem jsLower_jsLower (c : Nat) : jsLower (jsLower c) = jsLower c := by
  unfold jsLower
  split
  · split <;> omega
  · rfl

theorem capWord_capWord (w : List Nat) : capWord (capWord w) = capWord w := by
  cases w with
  | nil => rfl
  | cons c cs =>
    simp only [capWord, jsUpper_jsUpper, List.map_map, List.cons.injEq, true_and]
    exact List.map_congr_left fun a _ => jsLower_jsLower a

theorem jsUpper_alnum {c : Nat} (h : isAlnumC c = true) :
    isAlnumC (jsUpper c) = true := by
  simp only [isAlnumC, isLetterC, isUpperC, isLowerC, isDigitC, jsUpper,
    Bool.or_eq_true, Bool.and_eq_true, decide_eq_true_eq] at h ⊢
  split <;> omega

theorem jsLower_alnum {c : Nat} (h : isAlnumC c = true) :
    isAlnumC (jsLower c) = true := by
  simp only [isAlnumC, isLetterC, isUpperC, isLowerC, isDigitC, jsLower,
    Bool.or_eq_true, Bool.and_eq_true, decide_eq_true_eq] at h ⊢
  split <;> omega

theorem not_ws_of_alnum {c : Nat} (h : isAlnumC c = true) : isJsWs c = false := by
  simp only [isAlnumC, isLetterC, isUpperC, isLowerC, isDigitC,
    Bool.or_eq_true, Bool.and_eq_true, decide_eq_true_eq] at h
  simp only [isJsWs, Bool.or_eq_false_iff, Bool.and_eq_false_iff,
    beq_eq_false_iff_ne, ne_eq, decide_eq_false_iff_not]
  omega

theorem capWord_alnum {w : List Nat} (h : ∀ c ∈ w, isAlnumC c = true) :
    ∀ c ∈ capWord w, isAlnumC c = true := by
  cases w with
  | nil => simp [capWord]
  | cons a cs =>
    intro c hc
    simp only [capWord, List.mem_cons, List.mem_map] at hc
    rcases hc with rfl | ⟨b, hb, rfl⟩
    · exact jsUpper_alnum (h a (by simp))
    · exact jsLower_alnum (h b (by simp [hb]))

theorem splitWsAcc_no_ws (s : List Nat) :
    ∀ acc, (∀ c ∈ s, isJsWs c = false) → splitWsAcc s acc = [acc.reverse ++ s] := by
  induction s with
  | nil => intro acc _; simp [splitWsAcc]
  | cons c cs ih =>
    intro acc h
    have hc : isJsWs c = false := h c (by simp)
    simp only [splitWsAcc, hc, Bool.false_eq_true, if_false]
    rw [ih (c :: acc) (fun d hd => h d (by simp [hd]))]
    simp

theorem capWord_eq_nil_iff (w : List Nat) : capWord w = [] ↔ w = [] := by
  cases w <;> simp [capWord]

/-- C1 counterexample: `toValidStoryName` is not idempotent; a spaced input
like `"A B"` maps to `"AB"` after one application and to `"Ab"` after two. -/
theorem toValidStoryName_not_idempotent_on_spaced :
    toValidStoryName (toValidStoryName (js "A B")) ≠ toValidStoryName (js "A B") := by
  decide

theorem toValidStoryName_of_no_ws (x : List Nat)
    (h : ∀ c ∈ x, isJsWs c = false) :
    toValidStoryName x =
      if capWord (x.filter (fun c => isAlnumC c || isJsWs c)) = [] then js "Default"
      else capWord (x.filter (fun c => isAlnumC c || isJsWs c)) := by
  have hstr_nws : ∀ c ∈ x.filter (fun c => isAlnumC c || isJsWs c),
      isJsWs c = false := fun c hc => h c (List.mem_filter.mp hc).1
  simp only [toValidStoryName, splitWs]
  rw [splitWsAcc_no_ws _ [] hstr_nws]
  simp [List.isEmpty_iff]

/-- C1 (amended): `toValidStoryName` is idempotent on every input containing
no whitespace; the original all-strings claim fails on inputs with internal
whitespace, where the second application lowercases the tail of later words. -/
theorem toValidStoryName_idempotent_of_no_ws (x : List Nat)
    (h : ∀ c ∈ x, isJsWs c = false) :
    toValidStoryName (toValidStoryName x) = toValidStoryName x := by
  have hstr_alnum : ∀ c ∈ x.filter (fun c => isAlnumC c || isJsWs c),
      isAlnumC c = true := by
    intro c hc
    have hmem := List.mem_filter.mp hc
    have hx := h c hmem.1
    have hp := hmem.2
    simp only [Bool.or_eq_true] at hp
    rcases hp with hp | hp
    · exact hp
    · rw [hx] at hp; exact absurd hp (by simp)
  rw [toValidStoryName_of_no_ws x h]
  by_cases hnil : capWord (x.filter (fun c => isAlnumC c || isJsWs c)) = []
  · rw [if_pos hnil]
    decide
  · rw [if_neg hnil]
    -- second application, on the already-capitalized word
    have halnum2 : ∀ c ∈ capWord (x.filter (fun c => isAlnumC c || isJsWs c)),
        isAlnumC c = true := capWord_alnum hstr_alnum
    rw [toValidStoryName_of_no_ws _ (fun c hc => not_ws_of_alnum (halnum2 c hc))]
    have hfilter2 : (capWord (x.filter (fun c => isAlnumC c || isJsWs c))).filter
        (fun c => isAlnumC c || isJsWs c) =
        capWord (x.filter (fun c => isAlnumC c || isJsWs c)) :=
      List.filter_eq_self.mpr fun c hc => by simp [halnum2 c hc]
    rw [hfilter2, capWord_capWord, if_neg hnil]

/-- Witness for the amended C1 theorem at the whitespace-free input
`"hello-World9!"`. -/
theorem toValidStoryName_idempotent_witness :
    (∀ c ∈ js "hello-World9!", isJsWs c = false) ∧
      toValidStoryName (toValidStoryName (js "hello-World9!")) =
        toValidStoryName (js "hello-World9!") :=
  ⟨by decide, toValidStoryName_idempotent_of_no_ws (js "hello-World9!") (by decide)⟩

/-! ### Facts about `generateStoryName` (claim C5) -/

/-- Formalization of the (corrected) specification wording: the raw story
name is the capitalized string value of the first matching key in the
priority list, else the literal `"Snapshot"`. -/
def storyNameSpec (props : SerializedProps) : List Nat :=
  match (meaningfulProps.filterMap (stringAt props)).head? with
  | some v => capitalizeFirst v
  | none => js "Snapshot"

theorem findSome?_eq_head?_filterMap {α β : Type} (f : α → Option β) (l : List α) :
    l.findSome? f = (l.filterMap f).head? := by
  induction l with
  | nil => rfl
  | cons a t ih =>
    simp only [List.findSome?_cons, List.filterMap_cons]
    cases h : f a with
    | none => exact ih
    | some b => simp

/-- C5 counterexample: the priority list of `generateStoryName` has only the
six keys `variant, type, size, mode, status, kind` and there is no
boolean-true fallback: a props bag `{intent: "danger"}` (or `{disabled:
true}`) falls through to the literal `"Snapshot"`, while the claim predicts
`"danger"` (resp. `"disabled"`). -/
theorem generateStoryName_ignores_intent_and_bool :
    generateStoryName [(js "intent", .strV (js "danger"))] = js "Snapshot" ∧
      js "Snapshot" ≠ js "danger" ∧ js "Snapshot" ≠ capitalizeFirst (js "danger") ∧
      generateStoryName [(js "disabled", .boolV true)] = js "Snapshot" ∧
      js "Snapshot" ≠ js "disabled" := by
  refine ⟨by decide, by decide, by decide, by decide, by decide⟩

/-- C5 (amended): with no explicit name, the raw fixture name is the
capitalized value of the first prop whose key is in the fixed priority
order `variant, type, size, mode, status, kind` and whose value is a
string; otherwise it is the literal `"Snapshot"` (no boolean-true fallback,
no `color`/`intent`/`appearance` keys). -/
theorem generateStoryName_eq_spec (props : SerializedProps) :
    generateStoryName props = storyNameSpec props := by
  simp only [generateStoryName, storyNameSpec, findSome?_eq_head?_filterMap]

/-! ### Facts about `createHash` / `sourceId` (claim C9) -/

/-- C9 counterexample: the 32-bit rolling hash collides on distinct pairs;
`("Aa", "X")` and `("BB", "X")` produce the same `sourceId`. -/
theorem sourceId_collision :
    sourceId (js "Aa") (js "X") = sourceId (js "BB") (js "X") ∧
      js "Aa" ≠ js "BB" := by
  refine ⟨by decide, by decide⟩

/-- C9 (amended): two different `(filePath, componentName)` pairs can map to
the same identifier — the identity hasher is not injective. -/
theorem sourceId_not_injective :
    ∃ p₁ n₁ p₂ n₂ : List Nat,
      ¬(p₁ = p₂ ∧ n₁ = n₂) ∧ sourceId p₁ n₁ = sourceId p₂ n₂ := by
  refine ⟨js "Aa", js "X", js "BB", js "X", by decide, by decide⟩

end SBDev

namespace SBDev

/-! ### A generic left-to-right global regex-replace scanner

JS `String.prototype.replace` with a `/g` regex scans the source string
left to right, replaces each non-overlapping match and never rescans
replacement text.  `rewriteGo` embeds that loop; the matcher `m` receives
the remaining input and yields the replacement together with the number of
consumed characters beyond the first.  The fuel argument makes the
recursion structural; `t.length` fuel always suffices because every step
consumes at least one character. -/

def rewriteGo (m : List Nat → Option (List Nat × Nat)) :
    Nat → List Nat → List Nat
  | 0, t => t
  | _ + 1, [] => []
  | f + 1, c :: rest =>
    match m (c :: rest) with
    | some (rep, k) => rep ++ rewriteGo m f (rest.drop k)
    | none => c :: rewriteGo m f rest

def rewriteScan (m : List Nat → Option (List Nat × Nat)) (t : List Nat) :
    List Nat := rewriteGo m t.length t

/-- Does a tag occurrence `'<'` followed by content recognized by `occB`
appear anywhere in the string? -/
def hasOccGo (occB : List Nat → Bool) : List Nat → Bool
  | [] => false
  | c :: t => (c == 60 && occB t) || hasOccGo occB t

theorem hasOccGo_append {occB : List Nat → Bool} (r s : List Nat)
    (h : hasOccGo occB (r ++ s) = true) :
    (∃ x v, r = x ++ 60 :: v ∧ occB (v ++ s) = true) ∨ hasOccGo occB s = true := by
  induction r with
  | nil => right; simpa using h
  | cons b r' ih =>
    simp only [List.cons_append, hasOccGo, Bool.or_eq_true, Bool.and_eq_true,
      beq_iff_eq] at h
    rcases h with ⟨hb, hocc⟩ | h
    · exact Or.inl ⟨[], r', by simp [hb], hocc⟩
    · rcases ih h with ⟨x, v, hxv, hocc⟩ | h
      · exact Or.inl ⟨b :: x, v, by simp [hxv], hocc⟩
      · exact Or.inr h

theorem hasOccGo_drop {occB : List Nat → Bool} :
    ∀ (k : Nat) (t : List Nat), hasOccGo occB t = false →
      hasOccGo occB (t.drop k) = false := by
  intro k
  induction k with
  | zero => intro t h; simpa using h
  | succ k ih =>
    intro t h
    cases t with
    | nil => simpa using h
    | cons c rest =>
      simp only [hasOccGo, Bool.or_eq_false_iff] at h
      exact ih rest h.2

theorem rewriteGo_prefix {m : List Nat → Option (List Nat × Nat)}
    (HrepLt : ∀ t rep k, m t = some (rep, k) → ∃ v, rep = 60 :: v) :
    ∀ (f : Nat) (t q : List Nat), 60 ∉ q → q <+: rewriteGo m f t → q <+: t := by
  intro f
  induction f with
  | zero => intro t q _ h; simpa [rewriteGo] using h
  | succ f ih =>
    intro t q hq h
    cases t with
    | nil => simpa [rewriteGo] using h
    | cons c rest =>
      simp only [rewriteGo] at h
      cases q with
      | nil => exact List.nil_prefix
      | cons qh q' =>
        have hqh : qh ≠ 60 := fun he => hq (he ▸ List.mem_cons_self qh q')
        rcases hm : m (c :: rest) with _ | ⟨rep, k⟩
        · rw [hm] at h
          rcases h with ⟨tail, htail⟩
          simp only [List.cons_append, List.cons.injEq] at htail
          obtain ⟨rfl, htail⟩ := htail
          have hpre : q' <+: rewriteGo m f rest := ⟨tail, htail⟩
          have hres := ih rest q' (fun hmem => hq (List.mem_cons_of_mem _ hmem)) hpre
          exact ⟨hres.choose, by simp [hres.choose_spec]⟩
        · rw [hm] at h
          rcases HrepLt _ _ _ hm with ⟨v, rfl⟩
          rcases h with ⟨tail, htail⟩
          simp only [List.cons_append, List.cons.injEq] at htail
          exact absurd htail.1 hqh

theorem rewriteGo_preserve {m : List Nat → Option (List Nat × Nat)}
    {occB : List Nat → Bool}
    (HrepLt : ∀ t rep k, m t = some (rep, k) → ∃ v, rep = 60 :: v)
    (Hsafe : ∀ t rep k, m t = some (rep, k) →
      ∀ x v, rep = x ++ 60 :: v → ∀ s, occB (v ++ s) = false)
    (Hwit : ∀ u, occB u = true →
      ∃ w, w <+: u ∧ 60 ∉ w ∧ ∀ u', w <+: u' → occB u' = true) :
    ∀ (f : Nat) (t : List Nat), hasOccGo occB t = false →
      hasOccGo occB (rewriteGo m f t) = false := by
  intro f
  induction f with
  | zero => intro t h; simpa [rewriteGo] using h
  | succ f ih =>
    intro t h
    cases t with
    | nil => simp [rewriteGo, hasOccGo]
    | cons c rest =>
      simp only [hasOccGo, Bool.or_eq_false_iff, Bool.and_eq_false_iff] at h
      obtain ⟨hhead, hrest⟩ := h
      simp only [rewriteGo]
      rcases hm : m (c :: rest) with _ | ⟨rep, k⟩
      · simp only [hm]
        simp only [hasOccGo, Bool.or_eq_false_iff, Bool.and_eq_false_iff]
        refine ⟨?_, ih rest hrest⟩
        rcases Bool.eq_false_or_eq_true (occB (rewriteGo m f rest)) with ho | ho
        swap
        · exact Or.inr ho
        · rcases Hwit _ ho with ⟨w, hw, hw60, hwmono⟩
          have hwrest : w <+: rest := rewriteGo_prefix HrepLt f rest w hw60 hw
          have hor : occB rest = true := hwmono rest hwrest
          rcases hhead with hc | hocc
          · exact Or.inl hc
          · rw [hor] at hocc
            exact absurd hocc (by simp)
      · simp only [hm]
        rcases Bool.eq_false_or_eq_true
          (hasOccGo occB (rep ++ rewriteGo m f (rest.drop k))) with hout | hout
        swap
        · exact hout
        · exfalso
          rcases hasOccGo_append _ _ hout with ⟨x, v, hxv, hocc⟩ | h2
          · exact absurd hocc (by simp [Hsafe _ _ _ hm x v hxv])
          · exact absurd h2 (by simp [ih _ (hasOccGo_drop k rest hrest)])

theorem rewriteGo_kill {m : List Nat → Option (List Nat × Nat)}
    {occB : List Nat → Bool}
    (HrepLt : ∀ t rep k, m t = some (rep, k) → ∃ v, rep = 60 :: v)
    (Hsafe : ∀ t rep k, m t = some (rep, k) →
      ∀ x v, rep = x ++ 60 :: v → ∀ s, occB (v ++ s) = false)
    (Hwit : ∀ u, occB u = true →
      ∃ w, w <+: u ∧ 60 ∉ w ∧ ∀ u', w <+: u' → occB u' = true)
    (Hcover : ∀ u, occB u = true → (m (60 :: u)).isSome) :
    ∀ (f : Nat) (t : List Nat), t.length ≤ f →
      hasOccGo occB (rewriteGo m f t) = false := by
  intro f
  induction f with
  | zero =>
    intro t h
    have : t = [] := List.length_eq_zero.mp (Nat.le_zero.mp h)
    simp [this, rewriteGo, hasOccGo]
  | succ f ih =>
    intro t h
    cases t with
    | nil => simp [rewriteGo, hasOccGo]
    | cons c rest =>
      simp only [List.length_cons, Nat.succ_le_succ_iff] at h
      simp only [rewriteGo]
      rcases hm : m (c :: rest) with _ | ⟨rep, k⟩
      · simp only [hm]
        simp only [hasOccGo, Bool.or_eq_false_iff, Bool.and_eq_false_iff]
        refine ⟨?_, ih rest h⟩
        rcases Bool.eq_false_or_eq_true (occB (rewriteGo m f rest)) with ho | ho
        swap
        · exact Or.inr ho
        · rcases Hwit _ ho with ⟨w, hw, hw60, hwmono⟩
          have hwrest : w <+: rest := rewriteGo_prefix HrepLt f rest w hw60 hw
          have hor : occB rest = true := hwmono rest hwrest
          rcases eq_or_ne c 60 with rfl | hc
          · exfalso
            have hs := Hcover rest hor
            rw [hm] at hs
            simp at hs
          · exact Or.inl (by simp [hc])
      · simp only [hm]
        rcases Bool.eq_false_or_eq_true
          (hasOccGo occB (rep ++ rewriteGo m f (rest.drop k))) with hout | hout
        swap
        · exact hout
        · exfalso
          rcases hasOccGo_append _ _ hout with ⟨x, v, hxv, hocc⟩ | h2
          · exact absurd hocc (by simp [Hsafe _ _ _ hm x v hxv])
          · have hlen : (rest.drop k).length ≤ f := by
              have := List.length_drop k rest
              omega
            exact absurd h2 (by simp [ih _ hlen])

end SBDev

namespace SBDev

/-! ### JSX tag extraction and styled/unknown-component rewriting
(story-generator.ts `extractComponentNamesFromJSXSource` lines 234-251 and
`replaceStyledComponentsInJSX` lines 610-637).
Code units: `'<'` = 60, `'>'` = 62, `'/'` = 47, `'.'` = 46. -/

/-- The capture class `(\s|>)` of the unknown-component opening-tag regex. -/
def isDelimC (c : Nat) : Bool := isJsWs c || c == 62

/-- Matcher for `/<styled\.([a-zA-Z][a-zA-Z0-9]*)/g`, replaced by `'<div'`. -/
def mStyledOpen (t : List Nat) : Option (List Nat × Nat) :=
  if (js "<styled.").isPrefixOf t then
    match t.drop 8 with
    | l :: _ =>
      if isLetterC l then
        some (js "<div", 8 + ((t.drop 9).takeWhile isAlnumC).length)
      else none
    | [] => none
  else none

/-- Matcher for `/<\/styled\.([a-zA-Z][a-zA-Z0-9]*)>/g`, replaced by
`'</div>'`. -/
def mStyledClose (t : List Nat) : Option (List Nat × Nat) :=
  if (js "</styled.").isPrefixOf t then
    match t.drop 9 with
    | l :: r =>
      if isLetterC l then
        match r.drop (r.takeWhile isAlnumC).length with
        | g :: _ =>
          if g == 62 then some (js "</div>", 10 + (r.takeWhile isAlnumC).length)
          else none
        | [] => none
      else none
    | [] => none
  else none

/-- Matcher for the per-component regex `` `<${name}(\s|>)` ``, replaced by
`'<div$1'` (the captured delimiter is kept). -/
def mOpenTag (name : List Nat) (t : List Nat) : Option (List Nat × Nat) :=
  if (60 :: name).isPrefixOf t then
    match t.drop (name.length + 1) with
    | d :: _ =>
      if isDelimC d then some (js "<div" ++ [d], name.length + 1) else none
    | [] => none
  else none

/-- Matcher for the per-component regex `` `</${name}>` ``, replaced by
`'</div>'`. -/
def mCloseTag (name : List Nat) (t : List Nat) : Option (List Nat × Nat) :=
  if (60 :: 47 :: (name ++ [62])).isPrefixOf t then
    some (js "</div>", name.length + 2)
  else none

/-- Raw scan of `/<([A-Z][a-zA-Z0-9]*)(?:\s|>|\.)/g`: records every captured
name, resuming after the consumed delimiter, exactly as repeated
`RegExp.exec` does. -/
def extractGo : Nat → List Nat → List (List Nat)
  | 0, _ => []
  | _ + 1, [] => []
  | f + 1, c :: rest =>
    if c == 60 then
      match rest with
      | u :: rest2 =>
        if isUpperC u then
          match rest2.drop (rest2.takeWhile isAlnumC).length with
          | e :: _ =>
            if isDelimC e || e == 46 then
              (u :: rest2.takeWhile isAlnumC) ::
                extractGo f (rest2.drop ((rest2.takeWhile isAlnumC).length + 1))
            else extractGo f rest
          | [] => extractGo f rest
        else extractGo f rest
      | [] => []
    else extractGo f rest

/-- JS `Set` construction: membership-deduplicated, first occurrence kept. -/
def dedupGo : List (List Nat) → List (List Nat) → List (List Nat)
  | [], _ => []
  | a :: t, seen =>
    if seen.contains a then dedupGo t seen else a :: dedupGo t (a :: seen)

def dedupKeepFirst (l : List (List Nat)) : List (List Nat) := dedupGo l []

/-- `extractComponentNamesFromJSXSource`: scan for capitalized JSX tag
names, skipping `Fragment` and `React`, collected into a `Set`. -/
def extractComponentNamesFromJSXSource (s : List Nat) : List (List Nat) :=
  dedupKeepFirst ((extractGo s.length s).filter
    (fun n => !(n == js "Fragment") && !(n == js "React")))

/-- The name-to-file registry (`componentRegistry: Map<string, string>`). -/
abbrev Registry := List (List Nat × List Nat)

def registryGet (reg : Registry) (n : List Nat) : Option (List Nat) :=
  match reg.find? (fun kv => kv.fst == n) with
  | some kv => some kv.snd
  | none => none

def registryHas (reg : Registry) (n : List Nat) : Bool := (registryGet reg n).isSome

/-- `replaceStyledComponentsInJSX`: first rewrite `<styled.x` / `</styled.x>`
tags to `div`, then (only when a registry was passed) extract the remaining
capitalized tag names and rewrite every name missing from the registry to
`div` (opening tags followed by whitespace or `>`, and closing tags). -/
def replaceStyledComponentsInJSX (s : List Nat) (reg : Option Registry) :
    List Nat :=
  let r2 := rewriteScan mStyledClose (rewriteScan mStyledOpen s)
  match reg with
  | none => r2
  | some R =>
    (extractComponentNamesFromJSXSource r2).foldl
      (fun acc n =>
        if registryHas R n then acc
        else rewriteScan (mCloseTag n) (rewriteScan (mOpenTag n) acc)) r2

/-! Occurrence predicates used to state the absence theorems.  Each is the
content test applied just after a `'<'`. -/

/-- `name` followed by whitespace or `>`: an opening-tag occurrence. -/
def occOpen (name : List Nat) (u : List Nat) : Bool :=
  name.isPrefixOf u &&
    (match u.drop name.length with | d :: _ => isDelimC d | [] => false)

/-- `name` followed by whitespace, `>` or `.`: an extractable occurrence. -/
def occExtract (name : List Nat) (u : List Nat) : Bool :=
  name.isPrefixOf u &&
    (match u.drop name.length with
     | d :: _ => isDelimC d || d == 46
     | [] => false)

/-- `styled.` followed by a letter: a styled opening-tag occurrence. -/
def occStyledOpen (u : List Nat) : Bool :=
  (js "styled.").isPrefixOf u &&
    (match u.drop 7 with | l :: _ => isLetterC l | [] => false)

/-- `/styled.` + letter + alphanumerics + `>`: a complete styled closing
tag. -/
def occStyledClose (u : List Nat) : Bool :=
  (js "/styled.").isPrefixOf u &&
    (match u.drop 8 with
     | l :: r =>
       isLetterC l &&
         (match r.drop (r.takeWhile isAlnumC).length with
          | g :: _ => g == 62
          | [] => false)
     | [] => false)

/-- A syntactically well-formed custom component tag name:
uppercase first letter, alphanumeric tail (the shape the extraction regex
can capture). -/
def goodTagName (n : List Nat) : Bool :=
  match n with
  | c :: cs => isUpperC c && cs.all isAlnumC
  | [] => false

end SBDev

namespace SBDev

/-! ### Instance facts for the tag matchers -/

theorem js_styled_dot : js "styled." = [115, 116, 121, 108, 101, 100, 46] := by decide
theorem js_slash_styled_dot : js "/styled." = [47, 115, 116, 121, 108, 101, 100, 46] := by decide
theorem js_div : js "div" = [100, 105, 118] := by decide
theorem js_lt_div : js "<div" = [60, 100, 105, 118] := by decide
theorem js_close_div : js "</div>" = [60, 47, 100, 105, 118, 62] := by decide
theorem js_lt_styled : js "<styled." = [60, 115, 116, 121, 108, 101, 100, 46] := by decide
theorem js_lt_slash_styled : js "</styled." = [60, 47, 115, 116, 121, 108, 101, 100, 46] := by decide

theorem delimC_ne60 {d : Nat} (h : isDelimC d = true) : d ≠ 60 := by
  simp only [isDelimC, isJsWs, Bool.or_eq_true, beq_iff_eq, Bool.and_eq_true,
    decide_eq_true_eq] at h
  omega

theorem delimC_not_alnum {d : Nat} (h : isDelimC d = true) : isAlnumC d = false := by
  simp only [isDelimC, isJsWs, Bool.or_eq_true, beq_iff_eq, Bool.and_eq_true,
    decide_eq_true_eq] at h
  simp only [isAlnumC, isLetterC, isUpperC, isLowerC, isDigitC,
    Bool.or_eq_false_iff, Bool.and_eq_false_iff, decide_eq_false_iff_not]
  omega

theorem extDelim_not_alnum {d : Nat} (h : (isDelimC d || d == 46) = true) :
    isAlnumC d = false := by
  simp only [Bool.or_eq_true, beq_iff_eq] at h
  rcases h with h | rfl
  · exact delimC_not_alnum h
  · decide

theorem extDelim_ne60 {d : Nat} (h : (isDelimC d || d == 46) = true) : d ≠ 60 := by
  simp only [Bool.or_eq_true, beq_iff_eq] at h
  rcases h with h | rfl
  · exact delimC_ne60 h
  · decide

theorem alnum_ne60 {c : Nat} (h : isAlnumC c = true) : c ≠ 60 := by
  simp only [isAlnumC, isLetterC, isUpperC, isLowerC, isDigitC, Bool.or_eq_true,
    Bool.and_eq_true, decide_eq_true_eq] at h
  omega

theorem upperC_alnum {c : Nat} (h : isUpperC c = true) : isAlnumC c = true := by
  simp [isAlnumC, isLetterC, h]

theorem letterC_alnum {c : Nat} (h : isLetterC c = true) : isAlnumC c = true := by
  simp [isAlnumC, h]

theorem upperC_ne {c : Nat} (h : isUpperC c = true) :
    c ≠ 100 ∧ c ≠ 47 ∧ c ≠ 60 := by
  simp only [isUpperC, Bool.and_eq_true, decide_eq_true_eq] at h
  omega

/-- Splitting a replacement of the form `60 :: w` (with no further `'<'`)
at a `'<'` position: only the head split exists. -/
theorem cons60_decomp {w x v : List Nat} (hw : 60 ∉ w)
    (h : 60 :: w = x ++ 60 :: v) : x = [] ∧ v = w := by
  cases x with
  | nil =>
    simp only [List.nil_append, List.cons.injEq, true_and] at h
    exact ⟨rfl, h.symm⟩
  | cons a x' =>
    simp only [List.cons_append, List.cons.injEq] at h
    obtain ⟨_, h2⟩ := h
    have hmem : 60 ∈ w := by
      rw [h2]
      exact List.mem_append_right x' (List.mem_cons_self 60 v)
    exact absurd hmem hw

/-- `goodTagName` destructured. -/
theorem goodTagName_elim {N : List Nat} (h : goodTagName N = true) :
    ∃ c cs, N = c :: cs ∧ isUpperC c = true ∧ ∀ a ∈ cs, isAlnumC a = true := by
  cases N with
  | nil => simp [goodTagName] at h
  | cons c cs =>
    simp only [goodTagName, Bool.and_eq_true, List.all_eq_true] at h
    exact ⟨c, cs, rfl, h.1, h.2⟩

theorem goodTagName_ne60 {N : List Nat} (h : goodTagName N = true) : 60 ∉ N := by
  rcases goodTagName_elim h with ⟨c, cs, rfl, hc, hcs⟩
  intro hmem
  rcases List.mem_cons.mp hmem with rfl | hmem
  · exact absurd hc (by decide)
  · exact absurd rfl (alnum_ne60 (hcs _ hmem))

/-- Opening-tag occurrences of a good name never start inside any of the
emitted `div` replacement texts. -/
theorem occOpen_false_div {N : List Nat} (hg : goodTagName N = true) :
    (∀ s, occOpen N ([100, 105, 118] ++ s) = false) ∧
    (∀ d s, occOpen N ([100, 105, 118, d] ++ s) = false) ∧
    (∀ s, occOpen N ([47, 100, 105, 118, 62] ++ s) = false) := by
  rcases goodTagName_elim hg with ⟨c, cs, rfl, hc, _⟩
  have h100 : c ≠ 100 := (upperC_ne hc).1
  have h47 : c ≠ 47 := (upperC_ne hc).2.1
  refine ⟨fun s => ?_, fun d s => ?_, fun s => ?_⟩ <;>
    simp [occOpen, List.isPrefixOf, h100, h47]

theorem occStyledOpen_false_div :
    (∀ s, occStyledOpen ([100, 105, 118] ++ s) = false) ∧
    (∀ d s, occStyledOpen ([100, 105, 118, d] ++ s) = false) ∧
    (∀ s, occStyledOpen ([47, 100, 105, 118, 62] ++ s) = false) := by
  refine ⟨fun s => ?_, fun d s => ?_, fun s => ?_⟩ <;>
    simp [occStyledOpen, js_styled_dot, List.isPrefixOf]

theorem occStyledClose_false_div :
    (∀ s, occStyledClose ([100, 105, 118] ++ s) = false) ∧
    (∀ d s, occStyledClose ([100, 105, 118, d] ++ s) = false) ∧
    (∀ s, occStyledClose ([47, 100, 105, 118, 62] ++ s) = false) := by
  refine ⟨fun s => ?_, fun d s => ?_, fun s => ?_⟩ <;>
    simp [occStyledClose, js_slash_styled_dot, List.isPrefixOf]

end SBDev

namespace SBDev

/-! ### Matcher replacement characterizations and scanner hypotheses -/

theorem mStyledOpen_rep {t rep : List Nat} {k : Nat}
    (h : mStyledOpen t = some (rep, k)) : rep = [60, 100, 105, 118] := by
  simp only [mStyledOpen, js_lt_div] at h
  repeat' split at h
  all_goals simp_all

theorem mStyledClose_rep {t rep : List Nat} {k : Nat}
    (h : mStyledClose t = some (rep, k)) : rep = [60, 47, 100, 105, 118, 62] := by
  simp only [mStyledClose, js_close_div] at h
  repeat' split at h
  all_goals simp_all

theorem mOpenTag_rep {name t rep : List Nat} {k : Nat}
    (h : mOpenTag name t = some (rep, k)) :
    ∃ d, isDelimC d = true ∧ rep = [60, 100, 105, 118, d] := by
  simp only [mOpenTag, js_lt_div] at h
  repeat' split at h
  all_goals simp_all
  rename_i x d tl hpre heq hd
  exact ⟨d, hd, h.1.symm⟩

theorem mCloseTag_rep {name t rep : List Nat} {k : Nat}
    (h : mCloseTag name t = some (rep, k)) : rep = [60, 47, 100, 105, 118, 62] := by
  simp only [mCloseTag, js_close_div] at h
  repeat' split at h
  all_goals simp_all

theorem mStyledOpen_repLt : ∀ (t rep : List Nat) (k : Nat),
    mStyledOpen t = some (rep, k) → ∃ v, rep = 60 :: v :=
  fun _ _ _ h => ⟨_, mStyledOpen_rep h⟩

theorem mStyledClose_repLt : ∀ (t rep : List Nat) (k : Nat),
    mStyledClose t = some (rep, k) → ∃ v, rep = 60 :: v :=
  fun _ _ _ h => ⟨_, mStyledClose_rep h⟩

theorem mOpenTag_repLt (name : List Nat) : ∀ (t rep : List Nat) (k : Nat),
    mOpenTag name t = some (rep, k) → ∃ v, rep = 60 :: v := by
  intro t rep k h
  rcases mOpenTag_rep h with ⟨d, _, rfl⟩
  exact ⟨_, rfl⟩

theorem mCloseTag_repLt (name : List Nat) : ∀ (t rep : List Nat) (k : Nat),
    mCloseTag name t = some (rep, k) → ∃ v, rep = 60 :: v :=
  fun _ _ _ h => ⟨_, mCloseTag_rep h⟩

/-- Any occurrence predicate that is false after each of the three `div`
replacement bodies is safe for every matcher that only emits those
replacement texts. -/
theorem safe_of_div_reps {occB : List Nat → Bool}
    (hocc : (∀ s, occB ([100, 105, 118] ++ s) = false) ∧
      (∀ d s, occB ([100, 105, 118, d] ++ s) = false) ∧
      (∀ s, occB ([47, 100, 105, 118, 62] ++ s) = false)) :
    (∀ x v, ([60, 100, 105, 118] : List Nat) = x ++ 60 :: v →
      ∀ s, occB (v ++ s) = false) ∧
    (∀ d x v, ([60, 100, 105, 118, d] : List Nat) = x ++ 60 :: v →
      isDelimC d = true → ∀ s, occB (v ++ s) = false) ∧
    (∀ x v, ([60, 47, 100, 105, 118, 62] : List Nat) = x ++ 60 :: v →
      ∀ s, occB (v ++ s) = false) := by
  obtain ⟨h1, h2, h3⟩ := hocc
  refine ⟨?_, ?_, ?_⟩
  · intro x v hx s
    have hd := cons60_decomp (w := [100, 105, 118]) (by decide) hx
    rw [hd.2]
    exact h1 s
  · intro d x v hx hdel s
    have h60 : (60 : Nat) ∉ [100, 105, 118, d] := by
      intro hm
      simp only [List.mem_cons, List.not_mem_nil, or_false] at hm
      rcases hm with h | h | h | h <;> first | omega | exact delimC_ne60 hdel h.symm
    have hd2 := cons60_decomp h60 hx
    rw [hd2.2]
    exact h2 d s
  · intro x v hx s
    have hd := cons60_decomp (w := [47, 100, 105, 118, 62]) (by decide) hx
    rw [hd.2]
    exact h3 s

theorem takeWhile_append_not {p : Nat → Bool} :
    ∀ {a : List Nat}, (∀ x ∈ a, p x = true) → ∀ {b : Nat}, p b = false →
      ∀ (c : List Nat), (a ++ b :: c).takeWhile p = a := by
  intro a
  induction a with
  | nil =>
    intro _ b hb c
    simp [List.takeWhile_cons, hb]
  | cons x a' ih =>
    intro ha b hb c
    have hx : p x = true := ha x (by simp)
    simp only [List.cons_append, List.takeWhile_cons, hx, if_true]
    rw [ih (fun y hy => ha y (by simp [hy])) hb c]

theorem drop_length_takeWhile (p : Nat → Bool) :
    ∀ (l : List Nat), l.drop (l.takeWhile p).length = l.dropWhile p := by
  intro l
  induction l with
  | nil => rfl
  | cons c t ih =>
    by_cases hc : p c = true
    · simp only [List.takeWhile_cons, hc, if_true, List.length_cons,
        List.drop_succ_cons, List.dropWhile_cons, ih]
    · simp only [List.takeWhile_cons, Bool.not_eq_true] at hc ⊢
      simp [hc, List.dropWhile_cons]

end SBDev

namespace SBDev

/-! ### Prefix-witness and coverage facts for the occurrence predicates -/

theorem isPrefixOf_elim {a u : List Nat} (h : a.isPrefixOf u = true) :
    ∃ t, u = a ++ t := by
  rcases List.isPrefixOf_iff_prefix.mp h with ⟨t, ht⟩
  exact ⟨t, ht.symm⟩

theorem isPrefixOf_intro (a t : List Nat) : a.isPrefixOf (a ++ t) = true :=
  List.isPrefixOf_iff_prefix.mpr ⟨t, rfl⟩

theorem takeWhile_all {p : Nat → Bool} {r : List Nat} :
    ∀ x ∈ r.takeWhile p, p x = true :=
  fun x hx => List.all_eq_true.mp (List.all_takeWhile (p := p) (l := r)) x hx

theorem occOpen_wit {N : List Nat} (hg : goodTagName N = true) :
    ∀ u, occOpen N u = true →
      ∃ w, w <+: u ∧ 60 ∉ w ∧ ∀ u', w <+: u' → occOpen N u' = true := by
  intro u h
  simp only [occOpen, Bool.and_eq_true] at h
  obtain ⟨hpre, hd⟩ := h
  rcases isPrefixOf_elim hpre with ⟨t, rfl⟩
  rw [List.drop_left] at hd
  rcases t with _ | ⟨d, r⟩
  · simp at hd
  · have hd' : isDelimC d = true := hd
    refine ⟨N ++ [d], ⟨r, by simp⟩, ?_, ?_⟩
    · intro hm
      rcases List.mem_append.mp hm with hm | hm
      · exact goodTagName_ne60 hg hm
      · simp only [List.mem_singleton] at hm
        exact delimC_ne60 hd' hm.symm
    · intro u' hu'
      rcases hu' with ⟨t2, ht2⟩
      subst ht2
      simp only [occOpen, List.append_assoc, List.singleton_append,
        isPrefixOf_intro, List.drop_left, Bool.true_and]
      exact hd'

theorem occExtract_wit {N : List Nat} (hg : goodTagName N = true) :
    ∀ u, occExtract N u = true →
      ∃ w, w <+: u ∧ 60 ∉ w ∧ ∀ u', w <+: u' → occExtract N u' = true := by
  intro u h
  simp only [occExtract, Bool.and_eq_true] at h
  obtain ⟨hpre, hd⟩ := h
  rcases isPrefixOf_elim hpre with ⟨t, rfl⟩
  rw [List.drop_left] at hd
  rcases t with _ | ⟨d, r⟩
  · simp at hd
  · have hd' : (isDelimC d || d == 46) = true := hd
    refine ⟨N ++ [d], ⟨r, by simp⟩, ?_, ?_⟩
    · intro hm
      rcases List.mem_append.mp hm with hm | hm
      · exact goodTagName_ne60 hg hm
      · simp only [List.mem_singleton] at hm
        exact extDelim_ne60 hd' hm.symm
    · intro u' hu'
      rcases hu' with ⟨t2, ht2⟩
      subst ht2
      simp only [occExtract, List.append_assoc, List.singleton_append,
        isPrefixOf_intro, List.drop_left, Bool.true_and]
      exact hd'

theorem occStyledOpen_wit :
    ∀ u, occStyledOpen u = true →
      ∃ w, w <+: u ∧ 60 ∉ w ∧ ∀ u', w <+: u' → occStyledOpen u' = true := by
  intro u h
  simp only [occStyledOpen, Bool.and_eq_true] at h
  obtain ⟨hpre, hd⟩ := h
  rcases isPrefixOf_elim hpre with ⟨t, rfl⟩
  have hlen : (js "styled.").length = 7 := by decide
  rw [← hlen, List.drop_left] at hd
  rcases t with _ | ⟨l, r⟩
  · simp at hd
  · have hd' : isLetterC l = true := hd
    refine ⟨js "styled." ++ [l], ⟨r, by simp⟩, ?_, ?_⟩
    · intro hm
      rcases List.mem_append.mp hm with hm | hm
      · rw [js_styled_dot] at hm
        simp only [List.mem_cons, List.not_mem_nil, or_false] at hm
        omega
      · simp only [List.mem_singleton] at hm
        exact absurd rfl (hm ▸ alnum_ne60 (letterC_alnum hd'))
    · intro u' hu'
      rcases hu' with ⟨t2, ht2⟩
      subst ht2
      simp only [occStyledOpen, List.append_assoc, List.singleton_append,
        isPrefixOf_intro, Bool.true_and]
      rw [← hlen, List.drop_left]
      exact hd'

theorem occStyledClose_wit :
    ∀ u, occStyledClose u = true →
      ∃ w, w <+: u ∧ 60 ∉ w ∧ ∀ u', w <+: u' → occStyledClose u' = true := by
  intro u h
  simp only [occStyledClose, Bool.and_eq_true] at h
  obtain ⟨hpre, hd⟩ := h
  rcases isPrefixOf_elim hpre with ⟨t, rfl⟩
  have hlen : (js "/styled.").length = 8 := by decide
  rw [← hlen, List.drop_left] at hd
  rcases t with _ | ⟨l, r⟩
  · simp at hd
  · have hd' : (isLetterC l &&
        (match r.drop (r.takeWhile isAlnumC).length with
         | g :: _ => g == 62
         | [] => false)) = true := hd
    rw [Bool.and_eq_true] at hd'
    obtain ⟨hl, hg⟩ := hd'
    rw [drop_length_takeWhile] at hg
    -- name the alphanumeric run once to avoid self-referential rewriting
    obtain ⟨run, hrun⟩ : ∃ run, r.takeWhile isAlnumC = run := ⟨_, rfl⟩
    have hallrun : ∀ x ∈ run, isAlnumC x = true := by
      intro x hx
      exact takeWhile_all x (hrun ▸ hx)
    rcases hr : r.dropWhile isAlnumC with _ | ⟨g, r3⟩
    · rw [hr] at hg; simp at hg
    · rw [hr] at hg
      have hg62 : g = 62 := by
        have hgg : (g == 62) = true := hg
        simpa using hgg
      subst hg62
      have hrdecomp : r = run ++ 62 :: r3 := by
        rw [← hrun, ← hr]
        exact (List.takeWhile_append_dropWhile (p := isAlnumC) (l := r)).symm
      refine ⟨js "/styled." ++ l :: (run ++ [62]), ⟨r3, ?_⟩, ?_, ?_⟩
      · rw [hrdecomp]
        simp
      · intro hm
        rcases List.mem_append.mp hm with hm | hm
        · rw [js_slash_styled_dot] at hm
          simp only [List.mem_cons, List.not_mem_nil, or_false] at hm
          omega
        · rcases List.mem_cons.mp hm with rfl | hm
          · exact absurd rfl (alnum_ne60 (letterC_alnum hl))
          · rcases List.mem_append.mp hm with hm | hm
            · exact absurd rfl (alnum_ne60 (hallrun _ hm))
            · simp only [List.mem_singleton] at hm
              omega
      · intro u' hu'
        rcases hu' with ⟨t2, ht2⟩
        subst ht2
        simp only [occStyledClose, List.append_assoc, List.cons_append,
          isPrefixOf_intro, Bool.true_and]
        rw [← hlen, List.drop_left]
        rw [Bool.and_eq_true]
        refine ⟨hl, ?_⟩
        simp only [List.nil_append]
        rw [takeWhile_append_not hallrun (by decide) t2]
        rw [List.drop_left]
        simp

theorem mOpenTag_cover (N : List Nat) :
    ∀ u, occOpen N u = true → (mOpenTag N (60 :: u)).isSome := by
  intro u h
  simp only [occOpen, Bool.and_eq_true] at h
  obtain ⟨hpre, hd⟩ := h
  rcases isPrefixOf_elim hpre with ⟨t, rfl⟩
  rw [List.drop_left] at hd
  rcases t with _ | ⟨d, r⟩
  · simp at hd
  · have hd' : isDelimC d = true := hd
    have hp : (60 :: N).isPrefixOf (60 :: (N ++ (d :: r))) = true := by
      have h2 := isPrefixOf_intro (60 :: N) (d :: r)
      simp only [List.cons_append] at h2
      exact h2
    have hdrop : (60 :: (N ++ (d :: r))).drop (N.length + 1) = d :: r := by
      simp [List.drop_left]
    simp [mOpenTag, hp, hdrop, hd']

theorem mStyledOpen_cover :
    ∀ u, occStyledOpen u = true → (mStyledOpen (60 :: u)).isSome := by
  intro u h
  simp only [occStyledOpen, Bool.and_eq_true] at h
  obtain ⟨hpre, hd⟩ := h
  rcases isPrefixOf_elim hpre with ⟨t, rfl⟩
  have hlen : (js "styled.").length = 7 := by decide
  rw [← hlen, List.drop_left] at hd
  rcases t with _ | ⟨l, r⟩
  · simp at hd
  · have hd' : isLetterC l = true := hd
    have hp : (js "<styled.").isPrefixOf (60 :: (js "styled." ++ (l :: r))) = true := by
      have h1 : js "<styled." = 60 :: js "styled." := by decide
      rw [h1]
      have h2 := isPrefixOf_intro (60 :: js "styled.") (l :: r)
      simp only [List.cons_append] at h2
      exact h2
    have hdrop : (60 :: (js "styled." ++ (l :: r))).drop 8 = l :: r := by
      have h3 : (60 :: (js "styled." ++ (l :: r))) = (60 :: js "styled.") ++ (l :: r) := by
        simp
      rw [h3]
      have hl8 : (60 :: js "styled.").length = 8 := by decide
      rw [← hl8, List.drop_left]
    simp [mStyledOpen, hp, hdrop, hd']

theorem mStyledClose_cover :
    ∀ u, occStyledClose u = true → (mStyledClose (60 :: u)).isSome := by
  intro u h
  simp only [occStyledClose, Bool.and_eq_true] at h
  obtain ⟨hpre, hd⟩ := h
  rcases isPrefixOf_elim hpre with ⟨t, rfl⟩
  have hlen : (js "/styled.").length = 8 := by decide
  rw [← hlen, List.drop_left] at hd
  rcases t with _ | ⟨l, r⟩
  · simp at hd
  · have hd' : (isLetterC l &&
        (match r.drop (r.takeWhile isAlnumC).length with
         | g :: _ => g == 62
         | [] => false)) = true := hd
    rw [Bool.and_eq_true] at hd'
    obtain ⟨hl, hg⟩ := hd'
    have hp : (js "</styled.").isPrefixOf (60 :: (js "/styled." ++ (l :: r))) = true := by
      have h1 : js "</styled." = 60 :: js "/styled." := by decide
      rw [h1]
      have h2 := isPrefixOf_intro (60 :: js "/styled.") (l :: r)
      simp only [List.cons_append] at h2
      exact h2
    have hdrop : (60 :: (js "/styled." ++ (l :: r))).drop 9 = l :: r := by
      have h3 : (60 :: (js "/styled." ++ (l :: r))) = (60 :: js "/styled.") ++ (l :: r) := by
        simp
      rw [h3]
      have hl9 : (60 :: js "/styled.").length = 9 := by decide
      rw [← hl9, List.drop_left]
    rcases hr : r.drop (r.takeWhile isAlnumC).length with _ | ⟨g, r3⟩
    · rw [hr] at hg; simp at hg
    · rw [hr] at hg
      have hg' : (g == 62) = true := hg
      simp [mStyledClose, hp, hdrop, hl, hr, hg']

end SBDev

namespace SBDev

/-! ### Completeness of the tag-name extraction scan -/

theorem hasOccGo_mono {p q : List Nat → Bool}
    (hpq : ∀ u, p u = true → q u = true) :
    ∀ t, hasOccGo q t = false → hasOccGo p t = false := by
  intro t
  induction t with
  | nil => intro h; exact h
  | cons c rest ih =>
    intro h
    simp only [hasOccGo, Bool.or_eq_false_iff, Bool.and_eq_false_iff] at h ⊢
    obtain ⟨h1, h2⟩ := h
    refine ⟨?_, ih h2⟩
    rcases h1 with h1 | h1
    · exact Or.inl h1
    · rcases Bool.eq_false_or_eq_true (p rest) with hp | hp
      · rw [hpq rest hp] at h1
        exact absurd h1 (by simp)
      · exact Or.inr hp

theorem occOpen_imp_occExtract (N : List Nat) :
    ∀ u, occOpen N u = true → occExtract N u = true := by
  intro u h
  simp only [occOpen, Bool.and_eq_true] at h
  obtain ⟨h1, h2⟩ := h
  simp only [occExtract, Bool.and_eq_true]
  refine ⟨h1, ?_⟩
  rcases hd : u.drop N.length with _ | ⟨d, r⟩
  · rw [hd] at h2; exact h2
  · rw [hd] at h2
    simp only [Bool.or_eq_true]
    exact Or.inl h2


/-- An `occExtract` occurrence starting right at a block `(u :: run) ++ e :: z`
(`run` alphanumeric, `e` not alphanumeric) forces the matched name to be
exactly `u :: run` with `e` its delimiter. -/
theorem occExtract_block {N : List Nat} (hg : goodTagName N = true)
    {u : Nat} {run z : List Nat} (hrun : ∀ x ∈ run, isAlnumC x = true)
    {e : Nat} (he : isAlnumC e = false)
    (h : occExtract N ((u :: run) ++ e :: z) = true) :
    N = u :: run ∧ (isDelimC e || e == 46) = true := by
  rcases goodTagName_elim hg with ⟨n0, N', hN, hn0, hN'⟩
  simp only [occExtract, Bool.and_eq_true] at h
  obtain ⟨hpre, hd⟩ := h
  rcases isPrefixOf_elim hpre with ⟨t, ht⟩
  rw [ht, List.drop_left] at hd
  rcases t with _ | ⟨d, r⟩
  · simp at hd
  · have hd' : (isDelimC d || d == 46) = true := hd
    have hdal : isAlnumC d = false := extDelim_not_alnum hd'
    have hNA : N = u :: run := by
      rcases List.append_eq_append_iff.mp ht with ⟨a', ha1, ha2⟩ | ⟨c', hc1, hc2⟩
      · rcases a' with _ | ⟨a0, a''⟩
        · rw [List.append_nil] at ha1
          exact ha1
        · exfalso
          simp only [List.cons_append, List.cons.injEq] at ha2
          obtain ⟨rfl, _⟩ := ha2
          rw [hN] at ha1
          simp only [List.cons_append, List.cons.injEq] at ha1
          have hmem : e ∈ N' := by
            rw [ha1.2]
            exact List.mem_append_right _ (List.mem_cons_self _ _)
          rw [hN' e hmem] at he
          exact absurd he (by simp)
      · rcases c' with _ | ⟨c0, c''⟩
        · rw [List.append_nil] at hc1
          exact hc1.symm
        · exfalso
          simp only [List.cons_append, List.cons.injEq] at hc2
          obtain ⟨rfl, _⟩ := hc2
          rw [hN] at hc1
          simp only [List.cons_append, List.cons.injEq] at hc1
          have hmem : d ∈ run := by
            rw [hc1.2]
            exact List.mem_append_right _ (List.mem_cons_self _ _)
          rw [hrun d hmem] at hdal
          exact absurd hdal (by simp)
    refine ⟨hNA, ?_⟩
    rw [hNA] at ht
    have hcan : e :: z = d :: r := List.append_cancel_left ht
    have hed : e = d := by
      injection hcan
    rw [hed]
    exact hd'

theorem dropWhile_head_not {p : Nat → Bool} {l : List Nat} {b : Nat} {bs : List Nat}
    (h : l.dropWhile p = b :: bs) : p b = false := by
  induction l with
  | nil => simp [List.dropWhile] at h
  | cons c t ih =>
    rw [List.dropWhile_cons] at h
    split at h
    · exact ih h
    · simp only [List.cons.injEq] at h
      rename_i hc
      rw [← h.1]
      simpa using hc

theorem occExtract_head_upper {N : List Nat} (hg : goodTagName N = true)
    {u : Nat} {rest2 : List Nat}
    (h : occExtract N (u :: rest2) = true) : isUpperC u = true := by
  rcases goodTagName_elim hg with ⟨n0, N', hN, hn0, _⟩
  simp only [occExtract, Bool.and_eq_true] at h
  rcases isPrefixOf_elim h.1 with ⟨t, ht⟩
  rw [hN] at ht
  simp only [List.cons_append, List.cons.injEq] at ht
  rw [ht.1]
  exact hn0

/-- Completeness of the extraction scan: every delimited occurrence of a
well-formed tag name is captured (with sufficient fuel). -/
theorem extractGo_complete {N : List Nat} (hg : goodTagName N = true) :
    ∀ (f : Nat) (t : List Nat), t.length ≤ f →
      hasOccGo (occExtract N) t = true → N ∈ extractGo f t := by
  intro f
  induction f with
  | zero =>
    intro t hlen hocc
    have : t = [] := List.length_eq_zero.mp (Nat.le_zero.mp hlen)
    rw [this] at hocc
    simp [hasOccGo] at hocc
  | succ f ih =>
    intro t hlen hocc
    cases t with
    | nil => simp [hasOccGo] at hocc
    | cons c rest =>
      simp only [List.length_cons, Nat.succ_le_succ_iff] at hlen
      simp only [hasOccGo, Bool.or_eq_true, Bool.and_eq_true, beq_iff_eq] at hocc
      by_cases hc : c = 60
      · subst hc
        cases rest with
        | nil =>
          exfalso
          rcases goodTagName_elim hg with ⟨n0, N', hN, _, _⟩
          rcases hocc with ⟨_, h⟩ | h
          · rw [hN] at h
            simp [occExtract, List.isPrefixOf] at h
          · simp [hasOccGo] at h
        | cons u rest2 =>
          simp only [List.length_cons] at hlen
          have hl2 : rest2.length + 1 ≤ f := hlen
          by_cases hu : isUpperC u = true
          · rcases hde : rest2.dropWhile isAlnumC with _ | ⟨e, tail2⟩
            · -- no delimiter after the alphanumeric run: no occurrence here
              have hallrest2 : ∀ x ∈ rest2, isAlnumC x = true := by
                intro x hx
                have hsub := List.takeWhile_append_dropWhile
                  (p := isAlnumC) (l := rest2)
                rw [hde, List.append_nil] at hsub
                rw [← hsub] at hx
                exact takeWhile_all x hx
              have hstep : extractGo (f + 1) (60 :: u :: rest2) =
                  extractGo f (u :: rest2) := by
                simp only [extractGo, if_pos rfl, hu, if_true,
                  drop_length_takeWhile, hde]
                simp
              rw [hstep]
              have hocc2 : hasOccGo (occExtract N) (u :: rest2) = true := by
                rcases hocc with ⟨_, h⟩ | h
                · exfalso
                  simp only [occExtract, Bool.and_eq_true] at h
                  rcases isPrefixOf_elim h.1 with ⟨t3, ht3⟩
                  rw [ht3, List.drop_left] at h
                  rcases t3 with _ | ⟨d, r3⟩
                  · simp at h
                  · have hd' : (isDelimC d || d == 46) = true := h.2
                    have hdal : isAlnumC d = false := extDelim_not_alnum hd'
                    have hdmem : d ∈ u :: rest2 := by
                      rw [ht3]
                      exact List.mem_append_right _ (List.mem_cons_self _ _)
                    rcases List.mem_cons.mp hdmem with rfl | hdmem
                    · rw [upperC_alnum hu] at hdal
                      exact absurd hdal (by simp)
                    · rw [hallrest2 d hdmem] at hdal
                      exact absurd hdal (by simp)
                · exact h
              exact ih (u :: rest2) hl2 hocc2
            · have hel : isAlnumC e = false := dropWhile_head_not hde
              have hrest2 : rest2 = rest2.takeWhile isAlnumC ++ e :: tail2 := by
                conv_lhs => rw [← List.takeWhile_append_dropWhile
                  (p := isAlnumC) (l := rest2)]
                rw [hde]
              by_cases hdelim : (isDelimC e || e == 46) = true
              · -- the scanner records the name u :: run here
                have hstep : extractGo (f + 1) (60 :: u :: rest2) =
                    (u :: rest2.takeWhile isAlnumC) ::
                      extractGo f
                        (rest2.drop ((rest2.takeWhile isAlnumC).length + 1)) := by
                  simp only [extractGo, if_pos rfl, hu, if_true,
                    drop_length_takeWhile, hde, hdelim]
                  simp
                rw [hstep]
                have hdrop1 : rest2.drop ((rest2.takeWhile isAlnumC).length + 1)
                    = tail2 := by
                  obtain ⟨run, hrunq⟩ : ∃ run, rest2.takeWhile isAlnumC = run :=
                    ⟨_, rfl⟩
                  have hr2 : rest2 = run ++ e :: tail2 := by
                    rw [← hrunq]; exact hrest2
                  rw [hrunq]
                  conv_lhs => rw [hr2]
                  have h1 : run.length + 1 = (run ++ [e]).length := by simp
                  rw [h1]
                  have h2 : run ++ e :: tail2 = (run ++ [e]) ++ tail2 := by simp
                  rw [h2, List.drop_left]
                rcases hocc with ⟨_, h⟩ | h
                · have hblock : occExtract N
                      ((u :: rest2.takeWhile isAlnumC) ++ e :: tail2) = true := by
                    have : u :: rest2 =
                        (u :: rest2.takeWhile isAlnumC) ++ e :: tail2 := by
                      conv_lhs => rw [hrest2]
                      simp
                    rw [← this]
                    exact h
                  have := (occExtract_block hg
                    (fun x hx => takeWhile_all x hx) hel hblock).1
                  rw [this]
                  exact List.mem_cons_self _ _
                · -- the occurrence lies beyond the consumed block
                  have hsplit : u :: rest2 =
                      ((u :: rest2.takeWhile isAlnumC) ++ [e]) ++ tail2 := by
                    conv_lhs => rw [hrest2]
                    simp
                  rw [hsplit] at h
                  rcases hasOccGo_append _ _ h with ⟨x, v, hxv, _⟩ | h2
                  · exfalso
                    have h60 : (60 : Nat) ∈ (u :: rest2.takeWhile isAlnumC) ++ [e] := by
                      rw [hxv]
                      exact List.mem_append_right _ (List.mem_cons_self _ _)
                    rcases List.mem_append.mp h60 with h60 | h60
                    · rcases List.mem_cons.mp h60 with rfl | h60
                      · exact absurd (upperC_alnum hu) (by decide)
                      · exact absurd rfl (alnum_ne60 (takeWhile_all _ h60))
                    · simp only [List.mem_singleton] at h60
                      exact absurd rfl (h60 ▸ extDelim_ne60 hdelim)
                  · have htail2len : tail2.length ≤ f := by
                      have : tail2.length ≤ rest2.length := by
                        conv_rhs => rw [hrest2]
                        simp only [List.length_append, List.length_cons]
                        omega
                      omega
                    rw [hdrop1]
                    exact List.mem_cons_of_mem _ (ih tail2 htail2len h2)
              · -- delimiter of the wrong kind: the scanner skips, and no
                -- occurrence can start at this position either
                have hstep : extractGo (f + 1) (60 :: u :: rest2) =
                    extractGo f (u :: rest2) := by
                  simp only [extractGo, if_pos rfl, hu, if_true,
                    drop_length_takeWhile, hde, hdelim]
                  simp
                rw [hstep]
                have hocc2 : hasOccGo (occExtract N) (u :: rest2) = true := by
                  rcases hocc with ⟨_, h⟩ | h
                  · exfalso
                    have hblock : occExtract N
                        ((u :: rest2.takeWhile isAlnumC) ++ e :: tail2) = true := by
                      have : u :: rest2 =
                          (u :: rest2.takeWhile isAlnumC) ++ e :: tail2 := by
                        conv_lhs => rw [hrest2]
                        simp
                      rw [← this]
                      exact h
                    exact hdelim (occExtract_block hg
                      (fun x hx => takeWhile_all x hx) hel hblock).2
                  · exact h
                exact ih (u :: rest2) hl2 hocc2
          · -- lowercase head: the scanner skips; no occurrence starts here
            have hstep : extractGo (f + 1) (60 :: u :: rest2) =
                extractGo f (u :: rest2) := by
              simp only [extractGo, if_pos rfl, hu]
              simp
            rw [hstep]
            have hocc2 : hasOccGo (occExtract N) (u :: rest2) = true := by
              rcases hocc with ⟨_, h⟩ | h
              · exact absurd (occExtract_head_upper hg h) hu
              · exact h
            exact ih (u :: rest2) hl2 hocc2
      · -- not a `<`: the scanner advances one character
        have hstep : extractGo (f + 1) (c :: rest) = extractGo f rest := by
          simp only [extractGo]
          rw [if_neg (by simpa using hc)]
        rw [hstep]
        rcases hocc with ⟨hceq, _⟩ | h
        · exact absurd hceq hc
        · exact ih rest hlen h

theorem dedupGo_mem {x : List Nat} :
    ∀ (l seen : List (List Nat)), x ∈ l → seen.contains x = false →
      x ∈ dedupGo l seen := by
  intro l
  induction l with
  | nil => intro seen h _; simp at h
  | cons a t ih =>
    intro seen hmem hseen
    rcases List.mem_cons.mp hmem with rfl | hmem
    · simp only [dedupGo, hseen, Bool.false_eq_true, if_false]
      exact List.mem_cons_self _ _
    · simp only [dedupGo]
      by_cases ha : seen.contains a = true
      · rw [if_pos ha]
        exact ih seen hmem hseen
      · rw [if_neg ha]
        by_cases hax : x = a
        · subst hax
          exact List.mem_cons_self _ _
        · refine List.mem_cons_of_mem _ (ih (a :: seen) hmem ?_)
          simp only [List.contains_cons, Bool.or_eq_false_iff]
          exact ⟨by simpa using fun h => hax (by simpa using h), hseen⟩

theorem mem_extractComponentNames {N s : List Nat}
    (h : N ∈ extractGo s.length s)
    (h1 : N ≠ js "Fragment") (h2 : N ≠ js "React") :
    N ∈ extractComponentNamesFromJSXSource s := by
  apply dedupGo_mem _ [] _ (by simp [List.contains])
  refine List.mem_filter.mpr ⟨h, ?_⟩
  simp only [Bool.and_eq_true, Bool.not_eq_true']
  constructor
  · simpa using h1
  · simpa using h2

/-- Safety packs: the three `div` replacement bodies never host an
occurrence. -/
def DivSafe (occB : List Nat → Bool) : Prop :=
  (∀ s, occB ([100, 105, 118] ++ s) = false) ∧
  (∀ d s, occB ([100, 105, 118, d] ++ s) = false) ∧
  (∀ s, occB ([47, 100, 105, 118, 62] ++ s) = false)

theorem hsafe_mStyledOpen {occB : List Nat → Bool} (hp : DivSafe occB) :
    ∀ t rep k, mStyledOpen t = some (rep, k) →
      ∀ x v, rep = x ++ 60 :: v → ∀ s, occB (v ++ s) = false := by
  intro t rep k h x v hx s
  rw [mStyledOpen_rep h] at hx
  exact (safe_of_div_reps hp).1 x v hx s

theorem hsafe_mStyledClose {occB : List Nat → Bool} (hp : DivSafe occB) :
    ∀ t rep k, mStyledClose t = some (rep, k) →
      ∀ x v, rep = x ++ 60 :: v → ∀ s, occB (v ++ s) = false := by
  intro t rep k h x v hx s
  rw [mStyledClose_rep h] at hx
  exact (safe_of_div_reps hp).2.2 x v hx s

theorem hsafe_mOpenTag {occB : List Nat → Bool} (hp : DivSafe occB) (n : List Nat) :
    ∀ t rep k, mOpenTag n t = some (rep, k) →
      ∀ x v, rep = x ++ 60 :: v → ∀ s, occB (v ++ s) = false := by
  intro t rep k h x v hx s
  rcases mOpenTag_rep h with ⟨d, hd, rfl⟩
  exact (safe_of_div_reps hp).2.1 d x v hx hd s

theorem hsafe_mCloseTag {occB : List Nat → Bool} (hp : DivSafe occB) (n : List Nat) :
    ∀ t rep k, mCloseTag n t = some (rep, k) →
      ∀ x v, rep = x ++ 60 :: v → ∀ s, occB (v ++ s) = false := by
  intro t rep k h x v hx s
  rw [mCloseTag_rep h] at hx
  exact (safe_of_div_reps hp).2.2 x v hx s

/-- One name-replacement fold step preserves absence of occurrences, for any
occurrence predicate that is div-safe and prefix-witnessed. -/
theorem step_preserves {occB : List Nat → Bool} (hp : DivSafe occB)
    (Hwit : ∀ u, occB u = true →
      ∃ w, w <+: u ∧ 60 ∉ w ∧ ∀ u', w <+: u' → occB u' = true)
    (n acc : List Nat) (h : hasOccGo occB acc = false) :
    hasOccGo occB
      (rewriteScan (mCloseTag n) (rewriteScan (mOpenTag n) acc)) = false := by
  apply rewriteGo_preserve (mCloseTag_repLt n) (hsafe_mCloseTag hp n) Hwit
  apply rewriteGo_preserve (mOpenTag_repLt n) (hsafe_mOpenTag hp n) Hwit
  exact h

theorem fold_preserves {occB : List Nat → Bool} (hp : DivSafe occB)
    (Hwit : ∀ u, occB u = true →
      ∃ w, w <+: u ∧ 60 ∉ w ∧ ∀ u', w <+: u' → occB u' = true)
    (R : Registry) :
    ∀ (l : List (List Nat)) (acc : List Nat), hasOccGo occB acc = false →
      hasOccGo occB (l.foldl
        (fun acc n =>
          if registryHas R n then acc
          else rewriteScan (mCloseTag n) (rewriteScan (mOpenTag n) acc)) acc)
        = false := by
  intro l
  induction l with
  | nil => intro acc h; exact h
  | cons n l2 ih =>
    intro acc h
    simp only [List.foldl_cons]
    by_cases hr : registryHas R n = true
    · rw [if_pos hr]
      exact ih acc h
    · rw [if_neg hr]
      exact ih _ (step_preserves hp Hwit n acc h)

theorem fold_kills {N : List Nat} (hg : goodTagName N = true) (R : Registry)
    (hreg : registryHas R N = false) :
    ∀ (l : List (List Nat)) (acc : List Nat), N ∈ l →
      hasOccGo (occOpen N) (l.foldl
        (fun acc n =>
          if registryHas R n then acc
          else rewriteScan (mCloseTag n) (rewriteScan (mOpenTag n) acc)) acc)
        = false := by
  have hp : DivSafe (occOpen N) := occOpen_false_div hg
  intro l
  induction l with
  | nil => intro acc h; simp at h
  | cons n l2 ih =>
    intro acc hmem
    simp only [List.foldl_cons]
    by_cases hnN : n = N
    · subst hnN
      rw [if_neg (by simp [hreg])]
      apply fold_preserves hp (occOpen_wit hg) R l2
      apply rewriteGo_preserve (mCloseTag_repLt n) (hsafe_mCloseTag hp n)
        (occOpen_wit hg)
      exact rewriteGo_kill (mOpenTag_repLt n) (hsafe_mOpenTag hp n)
        (occOpen_wit hg) (mOpenTag_cover n) _ _ (le_refl _)
    · rcases List.mem_cons.mp hmem with h | h
      · exact absurd h.symm hnN
      · by_cases hr : registryHas R n = true
        · rw [if_pos hr]
          exact ih acc h
        · rw [if_neg hr]
          exact ih _ h

end SBDev

namespace SBDev

/-! ### Absence theorems for `replaceStyledComponentsInJSX` -/

theorem replaceStyled_no_unregistered_open (s : List Nat) (R : Registry)
    (N : List Nat) (hg : goodTagName N = true)
    (hF : N ≠ js "Fragment") (hRe : N ≠ js "React")
    (hreg : registryHas R N = false) :
    hasOccGo (occOpen N) (replaceStyledComponentsInJSX s (some R)) = false := by
  have hp : DivSafe (occOpen N) := occOpen_false_div hg
  simp only [replaceStyledComponentsInJSX]
  by_cases hmem : N ∈ extractComponentNamesFromJSXSource
      (rewriteScan mStyledClose (rewriteScan mStyledOpen s))
  · exact fold_kills hg R hreg _ _ hmem
  · apply fold_preserves hp (occOpen_wit hg) R
    rcases Bool.eq_false_or_eq_true (hasOccGo (occExtract N)
        (rewriteScan mStyledClose (rewriteScan mStyledOpen s))) with he | he
    · exfalso
      exact hmem (mem_extractComponentNames
        (extractGo_complete hg _ _ (le_refl _) he) hF hRe)
    · exact hasOccGo_mono (occOpen_imp_occExtract N) _ he

theorem replaceStyled_no_styledOpen (s : List Nat) (reg : Option Registry) :
    hasOccGo occStyledOpen (replaceStyledComponentsInJSX s reg) = false := by
  have hp : DivSafe occStyledOpen := occStyledOpen_false_div
  have hbase : hasOccGo occStyledOpen
      (rewriteScan mStyledClose (rewriteScan mStyledOpen s)) = false := by
    apply rewriteGo_preserve mStyledClose_repLt (hsafe_mStyledClose hp)
      occStyledOpen_wit
    exact rewriteGo_kill mStyledOpen_repLt (hsafe_mStyledOpen hp)
      occStyledOpen_wit mStyledOpen_cover _ _ (le_refl _)
  cases reg with
  | none => exact hbase
  | some R =>
    simp only [replaceStyledComponentsInJSX]
    exact fold_preserves hp occStyledOpen_wit R _ _ hbase

theorem replaceStyled_no_styledClose (s : List Nat) (reg : Option Registry) :
    hasOccGo occStyledClose (replaceStyledComponentsInJSX s reg) = false := by
  have hp : DivSafe occStyledClose := occStyledClose_false_div
  have hbase : hasOccGo occStyledClose
      (rewriteScan mStyledClose (rewriteScan mStyledOpen s)) = false :=
    rewriteGo_kill mStyledClose_repLt (hsafe_mStyledClose hp)
      occStyledClose_wit mStyledClose_cover _ _ (le_refl _)
  cases reg with
  | none => exact hbase
  | some R =>
    simp only [replaceStyledComponentsInJSX]
    exact fold_preserves hp occStyledClose_wit R _ _ hbase

end SBDev

namespace SBDev

/-! ### Callback-handler detection and replacement
(`hasFunctionHandlersInJSX` lines 347-420, `replaceFunctionHandlersInJSX`
lines 426-503): a `\w+={` prop scan with a string-literal-aware balanced
brace matcher and four shape tests on the brace content. -/

/-- Leftmost match of `(\w+)=\{` in the suffix: offset and captured name.
The `\w+` run is maximal; a shorter (backtracked) run is never viable since
the character after it would be a word character, not `=`. -/
def findPropMatch : List Nat → Option (Nat × List Nat)
  | [] => none
  | c :: rest =>
    let run := (c :: rest).takeWhile isWordC
    if run.isEmpty then
      match findPropMatch rest with
      | some (off, name) => some (off + 1, name)
      | none => none
    else
      match (c :: rest).drop run.length with
      | 61 :: 123 :: _ => some (0, run)
      | _ =>
        match findPropMatch rest with
        | some (off, name) => some (off + 1, name)
        | none => none

/-- The brace-matching loop: characters from the opening `{`; `idx` is the
offset, `depth` the brace counter (an integer, as in JS), `inStr`/`strCh`
the string-literal state, `prev` the previous character (for `\`-escapes).
Returns the offset of the matching `}`. -/
def closeBraceGo : List Nat → Nat → Int → Bool → Nat → Nat → Option Nat
  | [], _, _, _, _, _ => none
  | ch :: rest, idx, depth, inStr, strCh, prev =>
    if (ch == 34 || ch == 39 || ch == 96) && prev != 92 then
      if !inStr then closeBraceGo rest (idx + 1) depth true ch ch
      else if ch == strCh then closeBraceGo rest (idx + 1) depth false strCh ch
      else closeBraceGo rest (idx + 1) depth inStr strCh ch
    else if inStr then closeBraceGo rest (idx + 1) depth inStr strCh ch
    else if ch == 123 then closeBraceGo rest (idx + 1) (depth + 1) inStr strCh ch
    else if ch == 125 then
      if depth - 1 == 0 then some idx
      else closeBraceGo rest (idx + 1) (depth - 1) inStr strCh ch
    else closeBraceGo rest (idx + 1) depth inStr strCh ch

/-- `^\([^)]*\)\s*=>` -/
def patArrow (c : List Nat) : Bool :=
  match c with
  | 40 :: r =>
    match r.drop (r.takeWhile (fun x => x != 41)).length with
    | 41 :: r2 =>
      match r2.dropWhile isJsWs with
      | 61 :: 62 :: _ => true
      | _ => false
    | _ => false
  | _ => false

/-- `^async\s*\([^)]*\)\s*=>` -/
def patAsyncArrow (c : List Nat) : Bool :=
  if (js "async").isPrefixOf c then
    patArrow ((c.drop 5).dropWhile isJsWs)
  else false

/-- `^function\s*\(` -/
def patFunctionLit (c : List Nat) : Bool :=
  if (js "function").isPrefixOf c then
    match (c.drop 8).dropWhile isJsWs with
    | 40 :: _ => true
    | _ => false
  else false

/-- `[\w.]` -/
def isWordDotC (c : Nat) : Bool := isWordC c || c == 46

/-- `^[\w.]+\([^)]*\)` -/
def patCall (c : List Nat) : Bool :=
  let run := c.takeWhile isWordDotC
  if run.isEmpty then false
  else
    match c.drop run.length with
    | 40 :: r =>
      match r.drop (r.takeWhile (fun x => x != 41)).length with
      | 41 :: _ => true
      | _ => false
    | _ => false

/-- The `functionPatterns.some(...)` test on the (trimmed) brace content. -/
def isFunctionHandler (content : List Nat) : Bool :=
  patArrow content || patAsyncArrow content || patFunctionLit content ||
    patCall content

def hasFnGo : Nat → List Nat → Bool
  | 0, _ => false
  | f + 1, s =>
    match findPropMatch s with
    | none => false
    | some (off, name) =>
      let braceStart := off + name.length + 1
      match closeBraceGo (s.drop braceStart) 0 0 false 0 61 with
      | none => hasFnGo f (s.drop (braceStart + 1))
      | some endOff =>
        if isFunctionHandler (jsTrim ((s.drop (braceStart + 1)).take (endOff - 1)))
        then true
        else hasFnGo f (s.drop (braceStart + endOff + 1))

/-- `hasFunctionHandlersInJSX` from the source. -/
def hasFunctionHandlersInJSX (s : List Nat) : Bool := hasFnGo s.length s

def replaceFnGo : Nat → List Nat → List Nat
  | 0, s => s
  | f + 1, s =>
    match findPropMatch s with
    | none => s
    | some (off, name) =>
      let braceStart := off + name.length + 1
      match closeBraceGo (s.drop braceStart) 0 0 false 0 61 with
      | none => s.take (braceStart + 1) ++ replaceFnGo f (s.drop (braceStart + 1))
      | some endOff =>
        if isFunctionHandler (jsTrim ((s.drop (braceStart + 1)).take (endOff - 1)))
        then
          s.take off ++ name ++ js "=\x7bfn()\x7d" ++
            replaceFnGo f (s.drop (braceStart + endOff + 1))
        else
          s.take (braceStart + endOff + 1) ++
            replaceFnGo f (s.drop (braceStart + endOff + 1))

/-- `replaceFunctionHandlersInJSX` from the source; the text before the scan
position is already emitted and (as in the JS loop, which moves `pos` past
every replacement) never revisited. -/
def replaceFunctionHandlersInJSX (s : List Nat) : List Nat := replaceFnGo s.length s

/-! ### Recursions over the serialized props tree
(`hasAnyFunctionProps` lines 306-324, `hasAnyJSXProps` lines 329-341,
`collectComponentRefs` lines 256-277).  In JS these recurse through every
`typeof value === 'object'` (arrays included); function placeholder records
recurse vacuously since their fields are a boolean and a string. -/

mutual

def hasFnValue : SerializedValue → Bool
  | .funcV _ => true
  | .jsxV src _ => hasFunctionHandlersInJSX src
  | .arrV items => hasFnList items
  | .objV fields => hasFnFields fields
  | _ => false

def hasFnList : List SerializedValue → Bool
  | [] => false
  | v :: vs => hasFnValue v || hasFnList vs

def hasFnFields : List (List Nat × SerializedValue) → Bool
  | [] => false
  | kv :: vs => hasFnValue kv.2 || hasFnFields vs

end

/-- `hasAnyFunctionProps` from the source. -/
def hasAnyFunctionProps (props : SerializedProps) : Bool := hasFnFields props

mutual

def hasJsxValue : SerializedValue → Bool
  | .jsxV _ _ => true
  | .arrV items => hasJsxList items
  | .objV fields => hasJsxFields fields
  | _ => false

def hasJsxList : List SerializedValue → Bool
  | [] => false
  | v :: vs => hasJsxValue v || hasJsxList vs

def hasJsxFields : List (List Nat × SerializedValue) → Bool
  | [] => false
  | kv :: vs => hasJsxValue kv.2 || hasJsxFields vs

end

/-- `hasAnyJSXProps` from the source. -/
def hasAnyJSXProps (props : SerializedProps) : Bool := hasJsxFields props

/-- `Set.add` preserving insertion order. -/
def insertUnique (acc : List (List Nat)) (n : List Nat) : List (List Nat) :=
  if acc.contains n then acc else acc ++ [n]

mutual

def collectRefsValue : SerializedValue → List (List Nat) → List (List Nat)
  | .jsxV src refs, acc =>
    (extractComponentNamesFromJSXSource src).foldl insertUnique
      (refs.foldl insertUnique acc)
  | .arrV items, acc => collectRefsList items acc
  | .objV fields, acc => collectRefsFields fields acc
  | _, acc => acc

def collectRefsList : List SerializedValue → List (List Nat) → List (List Nat)
  | [], acc => acc
  | v :: vs, acc => collectRefsList vs (collectRefsValue v acc)

def collectRefsFields :
    List (List Nat × SerializedValue) → List (List Nat) → List (List Nat)
  | [], acc => acc
  | kv :: vs, acc => collectRefsFields vs (collectRefsValue kv.2 acc)

end

/-- `collectComponentRefs` from the source (the `Set` is threaded as an
insertion-ordered duplicate-free list). -/
def collectComponentRefs (props : SerializedProps) (acc : List (List Nat)) :
    List (List Nat) := collectRefsFields props acc

end SBDev

namespace SBDev

/-! ### Args-object rendering (`formatPropKey`, `formatPropValue`,
`generateArgsContent`, story-generator.ts lines 571-714) -/

/-- Generic split on a separator character (JS `String.split` with a
one-character string). -/
def splitCharAcc (sep : Nat) : List Nat → List Nat → List (List Nat)
  | [], acc => [acc.reverse]
  | c :: cs, acc =>
    if c == sep then acc.reverse :: splitCharAcc sep cs []
    else splitCharAcc sep cs (c :: acc)

def splitChar (sep : Nat) (s : List Nat) : List (List Nat) := splitCharAcc sep s []

/-- `'  '.repeat(n)`. -/
def indentStr (n : Nat) : List Nat := List.replicate (2 * n) 32

def hexDigit (d : Nat) : Nat := if d < 10 then 48 + d else 87 + d

/-- One character under `JSON.stringify` string escaping. -/
def jsonEscape (c : Nat) : List Nat :=
  if c == 34 then [92, 34]
  else if c == 92 then [92, 92]
  else if c == 8 then [92, 98]
  else if c == 9 then [92, 116]
  else if c == 10 then [92, 110]
  else if c == 12 then [92, 102]
  else if c == 13 then [92, 114]
  else if c < 32 then [92, 117, 48, 48, hexDigit (c / 16), hexDigit (c % 16)]
  else [c]

/-- `JSON.stringify` of a string value. -/
def jsonQuote (s : List Nat) : List Nat :=
  34 :: (s.map jsonEscape).flatten ++ [34]

/-- `String(value)` for an integer-valued number. -/
def intToStr (n : Int) : List Nat :=
  if n < 0 then 45 :: natDigits n.natAbs else natDigits n.natAbs

def isIdentStartC (c : Nat) : Bool := isLetterC c || c == 95 || c == 36

def isIdentC (c : Nat) : Bool := isIdentStartC c || isDigitC c

/-- `formatPropKey`: identifier-safe keys stay bare, others are
JSON-quoted. -/
def formatPropKey (k : List Nat) : List Nat :=
  match k with
  | c :: cs => if isIdentStartC c && cs.all isIdentC then k else jsonQuote k
  | [] => jsonQuote []

/-- Multi-line JSX re-indentation: every line but the first is prefixed with
the current indent, and the whole block is wrapped in parentheses. -/
def indentJsxLines (indent : List Nat) : List (List Nat) → List (List Nat)
  | [] => []
  | l :: ls => l :: ls.map (fun line => indent ++ line)

mutual

def formatPropValue : SerializedValue → Nat → Option Registry → List Nat
  | .jsxV src _, indentLevel, reg =>
    let jsxSource :=
      replaceStyledComponentsInJSX (replaceFunctionHandlersInJSX src) reg
    if jsxSource.contains 10 then
      let indent := indentStr indentLevel
      let indentedJsx :=
        List.intercalate [10] (indentJsxLines indent (splitChar 10 jsxSource))
      40 :: 10 :: indent ++ indentedJsx ++ 10 :: indentStr (indentLevel - 1) ++ [41]
    else jsxSource
  | .funcV _, _, _ => js "fn()"
  | .nullV, _, _ => js "null"
  | .undefinedV, _, _ => js "undefined"
  | .strV s, _, _ => jsonQuote s
  | .numV n, _, _ => intToStr n
  | .boolV b, _, _ => if b then js "true" else js "false"
  | .arrV items, indentLevel, reg =>
    if items.isEmpty then js "[]"
    else
      91 :: 10 ::
        List.intercalate [10]
          (formatArrItems items indentLevel reg (indentStr (indentLevel + 1))) ++
        10 :: indentStr indentLevel ++ [93]
  | .objV fields, indentLevel, reg =>
    if fields.isEmpty then js "\x7b\x7d"
    else
      123 :: 10 ::
        List.intercalate [10]
          (formatObjFields fields indentLevel reg (indentStr (indentLevel + 1))) ++
        10 :: indentStr indentLevel ++ [125]

def formatArrItems :
    List SerializedValue → Nat → Option Registry → List Nat → List (List Nat)
  | [], _, _, _ => []
  | v :: vs, indentLevel, reg, innerIndent =>
    (innerIndent ++ formatPropValue v (indentLevel + 1) reg ++ [44]) ::
      formatArrItems vs indentLevel reg innerIndent

def formatObjFields :
    List (List Nat × SerializedValue) → Nat → Option Registry → List Nat →
      List (List Nat)
  | [], _, _, _ => []
  | kv :: vs, indentLevel, reg, innerIndent =>
    (innerIndent ++ formatPropKey kv.1 ++ js ": " ++
        formatPropValue kv.2 (indentLevel + 1) reg ++ [44]) ::
      formatObjFields vs indentLevel reg innerIndent

end

/-- `generateArgsContent` from the source. -/
def generateArgsContent (props : SerializedProps) (indentLevel : Nat)
    (reg : Option Registry) : List Nat :=
  if props.isEmpty then js "\x7b\x7d"
  else
    let indent := indentStr indentLevel
    let innerIndent := indentStr (indentLevel + 1)
    let propsContent :=
      List.intercalate [10]
        (props.map (fun kv =>
          innerIndent ++ formatPropKey kv.1 ++ js ": " ++
            formatPropValue kv.2 (indentLevel + 1) reg ++ [44]))
    123 :: 10 :: propsContent ++ 10 :: indent ++ [125]

/-! ### Path computations (`path.dirname/basename/extname/join/relative`
as used by `generateStory` and `getRelativeImportPath`) -/

def lastIdxGo (c : Nat) : List Nat → Nat → Option Nat → Option Nat
  | [], _, best => best
  | x :: r, i, best => lastIdxGo c r (i + 1) (if x == c then some i else best)

def lastIdx (c : Nat) (l : List Nat) : Option Nat := lastIdxGo c l 0 none

/-- POSIX `path.dirname` (for the well-formed file paths this plugin
handles). -/
def dirname (p : List Nat) : List Nat :=
  match lastIdx 47 p with
  | none => js "."
  | some 0 => js "/"
  | some i => p.take i

/-- POSIX `path.basename(p, ext)`. -/
def basename (p ext : List Nat) : List Nat :=
  let base := match lastIdx 47 p with
    | none => p
    | some i => p.drop (i + 1)
  if !ext.isEmpty && ext.isSuffixOf base && base != ext then
    base.take (base.length - ext.length)
  else base

/-- POSIX `path.extname`. -/
def extname (p : List Nat) : List Nat :=
  let base := basename p []
  match lastIdx 46 base with
  | some i => if i == 0 then [] else base.drop i
  | _ => []

/-- `path.join(dir, file)` for a clean directory and a bare file name. -/
def pathJoin (a b : List Nat) : List Nat := a ++ [47] ++ b

def pathSegs (p : List Nat) : List (List Nat) :=
  (splitChar 47 p).filter (fun s => !s.isEmpty)

def relSegs : List (List Nat) → List (List Nat) → List (List Nat)
  | f :: fs, t :: ts =>
    if f == t then relSegs fs ts
    else List.replicate (fs.length + 1) (js "..") ++ (t :: ts)
  | [], ts => ts
  | fs, [] => List.replicate fs.length (js "..")

/-- POSIX `path.relative` on absolute, normalized paths. -/
def pathRelative (fromP toP : List Nat) : List Nat :=
  List.intercalate [47] (relSegs (pathSegs fromP) (pathSegs toP))

/-- `getRelativeImportPath` from the source (lines 508-520). -/
def getRelativeImportPath (fromDir toFile : List Nat) : List Nat :=
  let toDir := dirname toFile
  let toFileName := basename toFile (extname toFile)
  let relativePath0 := pathRelative fromDir toDir
  let relativePath :=
    if relativePath0.isEmpty then js "."
    else if relativePath0.head? == some 46 then relativePath0
    else js "./" ++ relativePath0
  relativePath ++ [47] ++ toFileName

end SBDev

namespace SBDev

/-! ### Fresh-file story content (`generateStoryContent`, lines 525-566) -/

def generateStoryContent (componentName : List Nat)
    (imports : List (List Nat × List Nat)) (props : SerializedProps)
    (storyName : List Nat) (reg : Option Registry) : List Nat :=
  let needsFnImport := hasAnyFunctionProps props
  let needsReactImport := hasAnyJSXProps props
  let importStatements :=
    List.intercalate [10]
      ((if needsReactImport then [js "import React from 'react';"] else []) ++
        [js "import type { Meta, StoryObj } from '@storybook/react-vite';"] ++
        (if needsFnImport then [js "import { fn } from 'storybook/test';"] else []) ++
        imports.map (fun imp => js "import " ++ imp.1 ++ js " from '" ++ imp.2 ++ js "';"))
  let argsContent := generateArgsContent props 1 reg
  let hasArgs := !props.isEmpty
  importStatements ++
    js "\n\nconst meta: Meta<typeof " ++ componentName ++
    js "> = \x7b\n  component: " ++ componentName ++
    js ",\n\x7d;\n\nexport default meta;\ntype Story = StoryObj<typeof " ++
    componentName ++ js ">;\n\nexport const " ++ storyName ++
    js ": Story = \x7b" ++
    (if hasArgs then js "\n  args: " ++ argsContent ++ js "," else []) ++
    js "\n\x7d;\n"

/-! ### Append-mode machinery (`appendStoryToExisting`, lines 132-221) -/

/-- One match attempt of `/export\s+const\s+(\w+)\s*[=:]/` at the head of
`s`: captured name and total match length. -/
def matchStoryExport (s : List Nat) : Option (List Nat × Nat) :=
  if (js "export").isPrefixOf s then
    let r1 := s.drop 6
    let w1 := r1.takeWhile isJsWs
    if w1.isEmpty then none
    else
      let r2 := r1.drop w1.length
      if (js "const").isPrefixOf r2 then
        let r3 := r2.drop 5
        let w2 := r3.takeWhile isJsWs
        if w2.isEmpty then none
        else
          let r4 := r3.drop w2.length
          let nm := r4.takeWhile isWordC
          if nm.isEmpty then none
          else
            let r5 := r4.drop nm.length
            let w3 := r5.takeWhile isJsWs
            match r5.drop w3.length with
            | c :: _ =>
              if c == 61 || c == 58 then
                some (nm, 6 + w1.length + 5 + w2.length + nm.length + w3.length + 1)
              else none
            | [] => none
      else none
  else none

def collectExportsGo : Nat → List Nat → List (List Nat)
  | 0, _ => []
  | f + 1, s =>
    match s with
    | [] => []
    | _ :: rest =>
      match matchStoryExport s with
      | some (nm, len) => nm :: collectExportsGo f (s.drop len)
      | none => collectExportsGo f rest

/-- All `export const <Name>` captures of the existing file, in order. -/
def collectStoryExports (s : List Nat) : List (List Nat) :=
  collectExportsGo s.length s

def freshNameGo (stories : List (List Nat)) (base : List Nat) :
    Nat → Nat → List Nat
  | 0, k => base ++ natDigits k
  | f + 1, k =>
    if stories.contains (base ++ natDigits k) then
      freshNameGo stories base f (k + 1)
    else base ++ natDigits k

/-- The name-collision loop of `appendStoryToExisting` (lines 142-160). -/
def finalStoryName (existingContent storyName : List Nat) : List Nat :=
  let stories := dedupKeepFirst (collectStoryExports existingContent)
  if stories.contains storyName then
    freshNameGo stories storyName (stories.length + 1) 2
  else storyName

/-- One match attempt of
`` `import\s*\{([^}]+)\}\s*from\s*['"]PATH['"]` `` at the head of `s`:
captured import-name list and total match length. -/
def matchImportBraces (path0 : List Nat) (s : List Nat) :
    Option (List Nat × Nat) :=
  if (js "import").isPrefixOf s then
    let r1 := s.drop 6
    let w1 := r1.takeWhile isJsWs
    let r2 := r1.drop w1.length
    match r2 with
    | 123 :: r3 =>
      let body := r3.takeWhile (fun c => c != 125)
      if body.isEmpty then none
      else
        match r3.drop body.length with
        | 125 :: r4 =>
          let w2 := r4.takeWhile isJsWs
          let r5 := r4.drop w2.length
          if (js "from").isPrefixOf r5 then
            let r6 := r5.drop 4
            let w3 := r6.takeWhile isJsWs
            match r6.drop w3.length with
            | q1 :: r7 =>
              if q1 == 39 || q1 == 34 then
                if path0.isPrefixOf r7 then
                  match r7.drop path0.length with
                  | q2 :: _ =>
                    if q2 == 39 || q2 == 34 then
                      some (body, 6 + w1.length + 1 + body.length + 1 +
                        w2.length + 4 + w3.length + 1 + path0.length + 1)
                    else none
                  | [] => none
                else none
              else none
            | [] => none
          else none
        | _ => none
    | _ => none
  else none

/-- Leftmost match of a head matcher anywhere in the string:
`(index, capture, length)`. -/
def findMatchGo (m : List Nat → Option (List Nat × Nat)) :
    Nat → List Nat → Nat → Option (Nat × List Nat × Nat)
  | 0, _, _ => none
  | f + 1, s, idx =>
    match s with
    | [] => none
    | _ :: rest =>
      match m s with
      | some (cap, len) => some (idx, cap, len)
      | none => findMatchGo m f rest (idx + 1)

/-- The `@storybook/test` extension branch: rewrite the first
`import {...} from '@storybook/test'` to include `fn` (note the source
regex targets `@storybook/test` although the guard checked for
`storybook/test`). -/
def extendFnImport (content : List Nat) : List Nat :=
  match findMatchGo (matchImportBraces (js "@storybook/test"))
      content.length content 0 with
  | some (idx, body, len) =>
    content.take idx ++ js "import \x7b " ++ jsTrim body ++
      js ", fn \x7d from 'storybook/test'" ++ content.drop (idx + len)
  | none => content

/-- One unit of the `lastImportMatch` regex
`/^(import\s+.+from\s+['"][^'"]+['"];?\s*\n)+/m`: an import line (with its
trailing whitespace up to and including the last covered newline).  The
source regex is greedy; this scanner takes maximal character-class runs and
the leftmost viable `from`, which coincides on inputs whose import lines
contain a single `from`. -/
def matchAfterFrom (r : List Nat) : Option Nat :=
  let w2 := r.takeWhile isJsWs
  if w2.isEmpty then none
  else
    match r.drop w2.length with
    | q1 :: r2 =>
      if q1 == 39 || q1 == 34 then
        let body := r2.takeWhile (fun c => c != 39 && c != 34)
        if body.isEmpty then none
        else
          match r2.drop body.length with
          | _ :: r3 =>
            let hasSemi := r3.head? == some 59
            let r4 := if hasSemi then r3.drop 1 else r3
            let wsRun := r4.takeWhile isJsWs
            match lastIdx 10 wsRun with
            | some j =>
              some (w2.length + 1 + body.length + 1 +
                (if hasSemi then 1 else 0) + j + 1)
            | none => none
          | [] => none
      else none
    | [] => none

def matchFromSearch : List Nat → Nat → Nat → Option Nat
  | [], _, _ => none
  | c :: rest, consumed, seen =>
    if c == 10 then none
    else
      if seen ≥ 1 && (js "from").isPrefixOf (c :: rest) then
        match matchAfterFrom ((c :: rest).drop 4) with
        | some k => some (consumed + 4 + k)
        | none => matchFromSearch rest (consumed + 1) (seen + 1)
      else matchFromSearch rest (consumed + 1) (seen + 1)

def matchImportLine (s : List Nat) : Option Nat :=
  if (js "import").isPrefixOf s then
    let r1 := s.drop 6
    let w1 := r1.takeWhile isJsWs
    if w1.isEmpty then none
    else
      match matchFromSearch (r1.drop w1.length) 0 0 with
      | some k => some (6 + w1.length + k)
      | none => none
  else none

def importRunLenGo : Nat → List Nat → Nat
  | 0, _ => 0
  | f + 1, s =>
    match matchImportLine s with
    | none => 0
    | some k => k + importRunLenGo f (s.drop k)

/-- Length of the maximal run of import-line units starting at `s`. -/
def importRunLen (s : List Nat) : Nat := importRunLenGo s.length s

def findImportRunGo : List Nat → Nat → Bool → Option (Nat × Nat)
  | [], _, _ => none
  | c :: rest, idx, lineStart =>
    if lineStart then
      let len := importRunLen (c :: rest)
      if len != 0 then some (idx, len)
      else findImportRunGo rest (idx + 1) (c == 10)
    else findImportRunGo rest (idx + 1) (c == 10)

/-- `updatedContent.match(/^(import...\n)+/m)`: position and length of the
first import-line run starting at a line start. -/
def findImportRun (s : List Nat) : Option (Nat × Nat) := findImportRunGo s 0 true

/-- `imp.name.replace(/[{}]/g, '').trim()`. -/
def stripBracesTrim (name : List Nat) : List Nat :=
  jsTrim (name.filter (fun c => c != 123 && c != 125))

/-- The two `fn`-import branches of `appendStoryToExisting`
(lines 165-180); at this point `updatedContent === existingContent`. -/
def addFnImport (existing : List Nat) (needsFn : Bool) : List Nat :=
  if needsFn && !containsSubstr existing (js "from 'storybook/test'") then
    match findImportRun existing with
    | some (idx, len) =>
      existing.take (idx + len) ++ js "import { fn } from 'storybook/test';\n" ++
        existing.drop (idx + len)
    | none => existing
  else if needsFn && containsSubstr existing (js "from 'storybook/test'")
      && !containsSubstr existing (js "fn") then
    extendFnImport existing
  else existing

/-- One iteration of the missing-import loop (lines 182-207). -/
def addImportStep (existing : List Nat) (updated : List Nat)
    (imp : List Nat × List Nat) : List Nat :=
  let importName := stripBracesTrim imp.1
  if !containsSubstr existing importName || !containsSubstr existing imp.2 then
    match findMatchGo (matchImportBraces imp.2) updated.length updated 0 with
    | some (idx, body, len) =>
      if imp.1.head? == some 123 then
        if !containsSubstr body importName then
          updated.take idx ++ js "import \x7b " ++ jsTrim body ++ js ", " ++
            importName ++ js " \x7d from '" ++ imp.2 ++ js "'" ++
            updated.drop (idx + len)
        else updated
      else updated
    | none =>
      if !containsSubstr existing (js "from '" ++ imp.2 ++ js "'") then
        match findImportRun updated with
        | some (idx2, len2) =>
          updated.take (idx2 + len2) ++ js "import " ++ imp.1 ++ js " from '" ++
            imp.2 ++ js "';\n" ++ updated.drop (idx2 + len2)
        | none => updated
      else updated
  else updated

/-- `appendStoryToExisting` from the source. -/
def appendStoryToExisting (existingContent storyName : List Nat)
    (props : SerializedProps) (imports : List (List Nat × List Nat))
    (reg : Option Registry) : List Nat :=
  let finalName := finalStoryName existingContent storyName
  let needsFn := hasAnyFunctionProps props
  let updated1 := addFnImport existingContent needsFn
  let updated2 := imports.foldl (addImportStep existingContent) updated1
  let argsContent := generateArgsContent props 1 reg
  let hasArgs := !props.isEmpty
  let newStory := js "\nexport const " ++ finalName ++ js ": Story = \x7b" ++
    (if hasArgs then js "\n  args: " ++ argsContent ++ js "," else []) ++
    js "\n\x7d;\n"
  jsTrimEnd updated2 ++ [10] ++ newStory

/-! ### `generateStory` (lines 37-114) -/

structure ComponentMeta where
  componentName : List Nat
  filePath : List Nat
  relativeFilePath : List Nat
  srcId : List Nat
  isDefaultExport : Bool

structure StoryGenerationData where
  meta : ComponentMeta
  props : SerializedProps
  componentRegistry : Option Registry
  storyName : Option (List Nat)
  existingContent : Option (List Nat)

structure GeneratedStory where
  content : List Nat
  filePath : List Nat
  imports : List (List Nat × List Nat)
  storyName : List Nat

def generateStory (data : StoryGenerationData) : GeneratedStory :=
  let componentDir := dirname data.meta.filePath
  let componentFileName := basename data.meta.filePath (extname data.meta.filePath)
  let storyFilePath := pathJoin componentDir (componentFileName ++ js ".stories.tsx")
  -- `customStoryName || generateStoryName(props)` (empty string is falsy)
  let rawName := match data.storyName with
    | some n => if n.isEmpty then generateStoryName data.props else n
    | none => generateStoryName data.props
  let storyName := toValidStoryName rawName
  let componentRefs := collectComponentRefs data.props []
  let mainImport : List Nat × List Nat :=
    (if data.meta.isDefaultExport then data.meta.componentName
     else js "\x7b " ++ data.meta.componentName ++ js " \x7d",
     js "./" ++ componentFileName)
  let imports := match data.componentRegistry with
    | none => [mainImport]
    | some R =>
      componentRefs.foldl (fun acc refName =>
        if refName == data.meta.componentName then acc
        else
          match registryGet R refName with
          | some refFilePath =>
            acc ++ [(js "\x7b " ++ refName ++ js " \x7d",
              getRelativeImportPath componentDir refFilePath)]
          | none => acc) [mainImport]
  let content := match data.existingContent with
    | some existing =>
      if existing.isEmpty then
        generateStoryContent data.meta.componentName imports data.props
          storyName data.componentRegistry
      else
        appendStoryToExisting existing storyName data.props imports
          data.componentRegistry
    | none =>
      generateStoryContent data.meta.componentName imports data.props
        storyName data.componentRegistry
  { content := content, filePath := storyFilePath, imports := imports,
    storyName := storyName }

end SBDev

namespace SBDev

/-! ### General `containsSubstr` facts -/

theorem containsSubstr_append_right (a b pat : List Nat)
    (h : containsSubstr b pat = true) : containsSubstr (a ++ b) pat = true := by
  induction a with
  | nil => simpa using h
  | cons c t ih =>
    simp only [List.cons_append, containsSubstr, Bool.or_eq_true]
    exact Or.inr ih

theorem containsSubstr_of_prefix {hay pat : List Nat}
    (h : pat.isPrefixOf hay = true) : containsSubstr hay pat = true := by
  cases hay with
  | nil =>
    cases pat with
    | nil => rfl
    | cons c t => simp [List.isPrefixOf] at h
  | cons c t =>
    simp only [containsSubstr, Bool.or_eq_true]
    exact Or.inl h

/-! ### Claim C2: unresolved custom tags after `replaceStyledComponentsInJSX` -/

def dataC2 : StoryGenerationData :=
  { meta := { componentName := js "Button", filePath := js "/proj/Button.tsx",
              relativeFilePath := js "Button.tsx", srcId := js "b1",
              isDefaultExport := false },
    props := [(js "children", .jsxV (js "<Unknown/>") [js "Unknown"])],
    componentRegistry := some [], storyName := some (js "Primary"),
    existingContent := none }

set_option maxRecDepth 40000 in
/-- C2 counterexample: an unregistered capitalized tag written in
self-closing form without a space (`<Unknown/>`) survives into the final
`content` untouched, because the replacement regexes only cover
`<Name` + whitespace/`>` and `</Name>`. -/
theorem generateStory_keeps_unregistered_selfclosing :
    containsSubstr (generateStory dataC2).content (js "<Unknown/>") = true ∧
    registryHas [] (js "Unknown") = false ∧
    goodTagName (js "Unknown") = true := by decide

/-- C2 (amended): for every JSX source and registry, after
`replaceStyledComponentsInJSX` no unregistered capitalized tag name occurs
as a well-delimited opening tag (`<Name` followed by whitespace or `>`),
and no `<styled.x` opening or `</styled.x>` closing tag occurs at all;
the original all-occurrence claim fails on space-free self-closing
tags. -/
theorem replaceStyled_unregistered_absent (s : List Nat) (R : Registry)
    (N : List Nat) (hg : goodTagName N = true)
    (hF : N ≠ js "Fragment") (hRe : N ≠ js "React")
    (hreg : registryHas R N = false) :
    hasOccGo (occOpen N) (replaceStyledComponentsInJSX s (some R)) = false ∧
    hasOccGo occStyledOpen (replaceStyledComponentsInJSX s (some R)) = false ∧
    hasOccGo occStyledClose (replaceStyledComponentsInJSX s (some R)) = false :=
  ⟨replaceStyled_no_unregistered_open s R N hg hF hRe hreg,
   replaceStyled_no_styledOpen s (some R),
   replaceStyled_no_styledClose s (some R)⟩

set_option maxRecDepth 40000 in
/-- Witness for the amended C2 theorem at a concrete input. -/
theorem replaceStyled_unregistered_absent_witness :
    goodTagName (js "Foo") = true ∧
    registryHas [(js "Known", js "/p/Known.tsx")] (js "Foo") = false ∧
    hasOccGo (occOpen (js "Foo"))
      (replaceStyledComponentsInJSX
        (js "<Foo bar><styled.div>x</styled.div></Foo>")
        (some [(js "Known", js "/p/Known.tsx")])) = false :=
  ⟨by decide, by decide,
   (replaceStyled_unregistered_absent
     (js "<Foo bar><styled.div>x</styled.div></Foo>")
     [(js "Known", js "/p/Known.tsx")] (js "Foo")
     (by decide) (by decide) (by decide) (by decide)).1⟩

end SBDev

namespace SBDev

/-! ### Claim C3: the `fn` import in append mode -/

/-- An existing story file that already imports from `'storybook/test'`
(but not `fn`), as produced by an earlier version of the generator. -/
def exC3 : List Nat :=
  js "import type \x7b Meta, StoryObj \x7d from '@storybook/react-vite';\nimport \x7b expect \x7d from 'storybook/test';\nimport \x7b Button \x7d from './Button';\n\nconst meta: Meta<typeof Button> = \x7b\n  component: Button,\n\x7d;\n\nexport default meta;\ntype Story = StoryObj<typeof Button>;\n\nexport const Primary: Story = \x7b\n  args: \x7b\n    label: 'Hi',\n  \x7d,\n\x7d;\n"

set_option maxRecDepth 100000 in
/-- C3 code bug: appending a story with a function-valued prop to a file
whose only `storybook/test` import lacks `fn` emits `fn()` in the args but
adds no `fn` import at all — the guard checks for `from 'storybook/test'`
while the extension regex only matches `@storybook/test`, so neither the
insert branch nor the extend branch fires. -/
theorem appendStory_fn_import_missing :
    containsSubstr
      (appendStoryToExisting exC3 (js "Secondary")
        [(js "onClick", SerializedValue.funcV (js "onClick"))]
        [(js "\x7b Button \x7d", js "./Button")] none)
      (js "fn()") = true ∧
    containsSubstr
      (appendStoryToExisting exC3 (js "Secondary")
        [(js "onClick", SerializedValue.funcV (js "onClick"))]
        [(js "\x7b Button \x7d", js "./Button")] none)
      (js "import \x7b fn \x7d") = false ∧
    containsSubstr
      (appendStoryToExisting exC3 (js "Secondary")
        [(js "onClick", SerializedValue.funcV (js "onClick"))]
        [(js "\x7b Button \x7d", js "./Button")] none)
      (js ", fn \x7d from") = false ∧
    containsSubstr exC3 (js "fn") = false := by decide

end SBDev

namespace SBDev

/-! ### Claim C4: name uniqueness under append -/

theorem freshNameGo_step (stories : List (List Nat)) (base : List Nat)
    (f k : Nat) (h : stories.contains (base ++ natDigits k) = true) :
    freshNameGo stories base (f + 1) k = freshNameGo stories base f (k + 1) := by
  simp only [freshNameGo]
  rw [if_pos h]

theorem freshNameGo_stop (stories : List (List Nat)) (base : List Nat)
    (f k : Nat) (h : stories.contains (base ++ natDigits k) = false) :
    freshNameGo stories base (f + 1) k = base ++ natDigits k := by
  simp only [freshNameGo]
  rw [if_neg (fun hc => Bool.false_ne_true (h.symm.trans hc))]

theorem freshNameGo_three (stories : List (List Nat)) (N : List Nat)
    (hc2 : stories.contains (N ++ natDigits 2) = true)
    (hc3 : stories.contains (N ++ natDigits 3) = true)
    (hc4 : stories.contains (N ++ natDigits 4) = false) :
    freshNameGo stories N (3 + 1) 2 = N ++ natDigits 4 :=
  (freshNameGo_step stories N 3 2 hc2).trans
    ((freshNameGo_step stories N 2 3 hc3).trans
      (freshNameGo_stop stories N 1 4 hc4))

theorem containsSubstr_cons_right (c : Nat) (t pat : List Nat)
    (h : containsSubstr t pat = true) : containsSubstr (c :: t) pat = true := by
  show (pat.isPrefixOf (c :: t) || containsSubstr t pat) = true
  rw [h, Bool.or_true]

theorem containsSubstr_export_shape (F t1 t2 : List Nat) :
    containsSubstr (js "\nexport const " ++ F ++ js ": Story = \x7b" ++ t1 ++ t2)
      (js "export const " ++ F ++ js ": Story") = true := by
  have key : js "\nexport const " ++ F ++ js ": Story = \x7b" ++ t1 ++ t2
      = 10 :: ((js "export const " ++ F ++ js ": Story") ++
          (js " = \x7b" ++ t1 ++ t2)) := by
    rw [show (js "\nexport const " : List Nat) = 10 :: js "export const " from by decide,
      show (js ": Story = \x7b" : List Nat) = js ": Story" ++ js " = \x7b" from by decide]
    simp [List.append_assoc]
  rw [key]
  apply containsSubstr_cons_right
  exact containsSubstr_of_prefix (isPrefixOf_intro _ _)

/-- The appended block always carries `export const <finalName>: Story`. -/
theorem appendStory_contains_export (existing name : List Nat)
    (props : SerializedProps) (imports : List (List Nat × List Nat))
    (reg : Option Registry) :
    containsSubstr (appendStoryToExisting existing name props imports reg)
      (js "export const " ++ finalStoryName existing name ++ js ": Story") = true := by
  simp only [appendStoryToExisting]
  apply containsSubstr_append_right
  exact containsSubstr_export_shape _ _ _

/-- C4: if the scanned fixture exports of the existing text are exactly
`N`, `N2` and `N3`, appending a story that requests name `N` resolves the
collision to `N4` and emits `export const N4: Story`. -/
theorem appendStory_collision_suffix (text N : List Nat)
    (props : SerializedProps) (imports : List (List Nat × List Nat))
    (reg : Option Registry)
    (hperm : (dedupKeepFirst (collectStoryExports text)).Perm
      [N, N ++ [50], N ++ [51]]) :
    finalStoryName text N = N ++ [52] ∧
    containsSubstr (appendStoryToExisting text N props imports reg)
      (js "export const " ++ (N ++ [52]) ++ js ": Story") = true := by
  have hmemN : N ∈ dedupKeepFirst (collectStoryExports text) :=
    hperm.mem_iff.mpr (by simp)
  have hc2 : (dedupKeepFirst (collectStoryExports text)).contains
      (N ++ natDigits 2) = true := by
    rw [show natDigits 2 = [50] from by decide]
    exact List.elem_iff.mpr (hperm.mem_iff.mpr (by simp))
  have hc3 : (dedupKeepFirst (collectStoryExports text)).contains
      (N ++ natDigits 3) = true := by
    rw [show natDigits 3 = [51] from by decide]
    exact List.elem_iff.mpr (hperm.mem_iff.mpr (by simp))
  have hc4 : (dedupKeepFirst (collectStoryExports text)).contains
      (N ++ natDigits 4) = false := by
    rw [show natDigits 4 = [52] from by decide]
    rw [Bool.eq_false_iff]
    intro hcon
    have hm := hperm.mem_iff.mp (List.elem_iff.mp hcon)
    simp only [List.mem_cons, List.not_mem_nil, or_false] at hm
    rcases hm with h | h | h
    · have hl := congrArg List.length h
      simp at hl
    · have h' := List.append_cancel_left h
      simp at h'
    · have h' := List.append_cancel_left h
      simp at h'
  have hfin : finalStoryName text N = N ++ [52] := by
    have hcN : (dedupKeepFirst (collectStoryExports text)).contains N = true :=
      List.elem_iff.mpr hmemN
    have hlen : (dedupKeepFirst (collectStoryExports text)).length = 3 := by
      rw [hperm.length_eq]; rfl
    simp only [finalStoryName]
    rw [if_pos hcN, hlen]
    rw [freshNameGo_three (dedupKeepFirst (collectStoryExports text)) N hc2 hc3 hc4]
    rw [show natDigits 4 = [52] from by decide]
  refine ⟨hfin, ?_⟩
  have h := appendStory_contains_export text N props imports reg
  rw [hfin] at h
  exact h

/-- An existing file exporting exactly `Primary`, `Primary2`, `Primary3`. -/
def textC4 : List Nat :=
  js "export const Primary: Story = \x7b\x7d;\nexport const Primary2: Story = \x7b\x7d;\nexport const Primary3: Story = \x7b\x7d;\n"

set_option maxRecDepth 40000 in
/-- Witness for C4 at a concrete existing file. -/
theorem appendStory_collision_suffix_witness :
    finalStoryName textC4 (js "Primary") = js "Primary" ++ [52] ∧
    containsSubstr (appendStoryToExisting textC4 (js "Primary") [] [] none)
      (js "export const " ++ (js "Primary" ++ [52]) ++ js ": Story") = true :=
  appendStory_collision_suffix textC4 (js "Primary") [] [] none (by decide)

end SBDev

namespace SBDev

/-! ### Claim C6: frame property of append mode -/

/-- An existing file with no top-of-file imports whose only import-shaped
line sits inside a template literal of an existing export. -/
def exC6 : List Nat :=
  js "const x = 1;\nexport const Primary: Story = \x7b\n  args: \x7b\n    code: `\nimport a from 'b'\n`,\n  \x7d,\n\x7d;\n"

set_option maxRecDepth 100000 in
/-- C6 counterexample: when a new named import has to be added, the
import-run regex can match an import-looking line inside a template
literal of an existing export, and the new import line is spliced into
that export's body — the pre-existing export is not preserved
byte-for-byte. -/
theorem appendStory_inserts_inside_template :
    containsSubstr exC6 (js "code: `\nimport a from 'b'\n`") = true ∧
    containsSubstr
      (appendStoryToExisting exC6 (js "Secondary") []
        [(js "\x7b Button \x7d", js "./Button")] none)
      (js "code: `\nimport a from 'b'\n`") = false := by decide

theorem addFnImport_false (existing : List Nat) :
    addFnImport existing false = existing := by
  simp [addFnImport]

theorem addImportStep_id (existing u : List Nat) (imp : List Nat × List Nat)
    (h1 : containsSubstr existing (stripBracesTrim imp.1) = true)
    (h2 : containsSubstr existing imp.2 = true) :
    addImportStep existing u imp = u := by
  simp [addImportStep, h1, h2]

theorem foldl_addImportStep_id (existing : List Nat)
    (l : List (List Nat × List Nat))
    (h : ∀ imp ∈ l, containsSubstr existing (stripBracesTrim imp.1) = true ∧
      containsSubstr existing imp.2 = true) :
    ∀ u, l.foldl (addImportStep existing) u = u := by
  induction l with
  | nil => intro u; rfl
  | cons a t ih =>
    intro u
    have ha := h a (List.mem_cons_self a t)
    rw [List.foldl_cons, addImportStep_id existing u a ha.1 ha.2]
    exact ih (fun imp hi => h imp (List.mem_cons_of_mem a hi)) u

/-- C6 (amended): when no import work is needed — the props carry no
function values, and every requested import's stripped name and path
already occur in the existing text — append mode returns exactly the
trimmed existing text followed by the new fixture export appended
verbatim, so all pre-existing content is preserved byte-for-byte; the
unconditional claim fails when an import line must be inserted, because
the insertion point regex can land inside an existing export. -/
theorem appendStory_frame (existing name : List Nat) (props : SerializedProps)
    (imports : List (List Nat × List Nat)) (reg : Option Registry)
    (hfn : hasAnyFunctionProps props = false)
    (himp : ∀ imp ∈ imports,
      containsSubstr existing (stripBracesTrim imp.1) = true ∧
      containsSubstr existing imp.2 = true) :
    appendStoryToExisting existing name props imports reg =
      jsTrimEnd existing ++ [10] ++ js "\nexport const " ++
        finalStoryName existing name ++ js ": Story = \x7b" ++
        (if !props.isEmpty then
          js "\n  args: " ++ generateArgsContent props 1 reg ++ js ","
         else []) ++ js "\n\x7d;\n" := by
  have h2 : imports.foldl (addImportStep existing) existing = existing :=
    foldl_addImportStep_id existing imports himp existing
  simp only [appendStoryToExisting, hfn, addFnImport_false, h2]
  simp only [List.append_assoc]

/-- An existing file that already imports everything the new story needs. -/
def exC6W : List Nat :=
  js "import \x7b Button \x7d from './Button';\n\nexport const Primary: Story = \x7b\x7d;\n"

set_option maxRecDepth 40000 in
/-- Witness for the amended C6 theorem at a concrete input. -/
theorem appendStory_frame_witness :
    appendStoryToExisting exC6W (js "Secondary") []
      [(js "\x7b Button \x7d", js "./Button")] none =
      jsTrimEnd exC6W ++ [10] ++ js "\nexport const " ++
        finalStoryName exC6W (js "Secondary") ++ js ": Story = \x7b" ++
        (if !(([] : SerializedProps)).isEmpty then
          js "\n  args: " ++ generateArgsContent [] 1 none ++ js ","
         else []) ++ js "\n\x7d;\n" :=
  appendStory_frame exC6W (js "Secondary") []
    [(js "\x7b Button \x7d", js "./Button")] none (by decide) (by decide)

end SBDev

namespace SBDev

/-! ### Claim C10: the referenced-component set and import resolution

`refsSpecValue`/`refsSpecList`/`refsSpecFields` are modelled on the spec's
words: the union, over all JSX values at any nesting depth, of the value's
declared `componentRefs` and the tag names extracted from its JSX source
(extraction itself already excludes `Fragment`/`React`). -/

mutual

def refsSpecValue : SerializedValue → List (List Nat)
  | .jsxV src refs => refs ++ extractComponentNamesFromJSXSource src
  | .arrV items => refsSpecList items
  | .objV fields => refsSpecFields fields
  | _ => []

def refsSpecList : List SerializedValue → List (List Nat)
  | [] => []
  | v :: vs => refsSpecValue v ++ refsSpecList vs

def refsSpecFields : List (List Nat × SerializedValue) → List (List Nat)
  | [] => []
  | kv :: vs => refsSpecValue kv.2 ++ refsSpecFields vs

end

theorem insertUnique_mem (acc : List (List Nat)) (x n : List Nat) :
    n ∈ insertUnique acc x ↔ n ∈ acc ∨ n = x := by
  simp only [insertUnique]
  split
  · rename_i h
    constructor
    · exact Or.inl
    · rintro (h' | rfl)
      · exact h'
      · exact List.elem_iff.mp h
  · simp [List.mem_append]

theorem foldl_insertUnique_mem (l : List (List Nat)) (acc : List (List Nat))
    (n : List Nat) :
    n ∈ l.foldl insertUnique acc ↔ n ∈ acc ∨ n ∈ l := by
  induction l generalizing acc with
  | nil => simp
  | cons a t ih =>
    rw [List.foldl_cons, ih, insertUnique_mem]
    simp [List.mem_cons, or_assoc]

mutual

theorem collectRefsValue_mem (v : SerializedValue) (acc : List (List Nat))
    (n : List Nat) :
    n ∈ collectRefsValue v acc ↔ n ∈ acc ∨ n ∈ refsSpecValue v :=
  match v with
  | .jsxV src refs => by
    simp only [collectRefsValue, refsSpecValue]
    rw [foldl_insertUnique_mem, foldl_insertUnique_mem]
    simp [List.mem_append, or_assoc]
  | .arrV items => by
    simp only [collectRefsValue, refsSpecValue]
    exact collectRefsList_mem items acc n
  | .objV fields => by
    simp only [collectRefsValue, refsSpecValue]
    exact collectRefsFields_mem fields acc n
  | .strV s => by simp [collectRefsValue, refsSpecValue]
  | .numV m => by simp [collectRefsValue, refsSpecValue]
  | .funcV f => by simp [collectRefsValue, refsSpecValue]
  | .boolV b => by simp [collectRefsValue, refsSpecValue]
  | .nullV => by simp [collectRefsValue, refsSpecValue]
  | .undefinedV => by simp [collectRefsValue, refsSpecValue]

theorem collectRefsList_mem (l : List SerializedValue) (acc : List (List Nat))
    (n : List Nat) :
    n ∈ collectRefsList l acc ↔ n ∈ acc ∨ n ∈ refsSpecList l :=
  match l with
  | [] => by simp [collectRefsList, refsSpecList]
  | v :: vs => by
    simp only [collectRefsList, refsSpecList]
    rw [collectRefsList_mem vs (collectRefsValue v acc) n,
      collectRefsValue_mem v acc n]
    simp [List.mem_append, or_assoc]

theorem collectRefsFields_mem (fs : List (List Nat × SerializedValue))
    (acc : List (List Nat)) (n : List Nat) :
    n ∈ collectRefsFields fs acc ↔ n ∈ acc ∨ n ∈ refsSpecFields fs :=
  match fs with
  | [] => by simp [collectRefsFields, refsSpecFields]
  | kv :: vs => by
    simp only [collectRefsFields, refsSpecFields]
    rw [collectRefsFields_mem vs (collectRefsValue kv.2 acc) n,
      collectRefsValue_mem kv.2 acc n]
    simp [List.mem_append, or_assoc]

end

theorem foldl_grow {α β : Type} (f : List α → β → List α)
    (hf : ∀ acc b x, x ∈ acc → x ∈ f acc b) :
    ∀ (l : List β) (acc : List α) (x : α), x ∈ acc → x ∈ l.foldl f acc := by
  intro l
  induction l with
  | nil => intro acc x hx; exact hx
  | cons a t ih =>
    intro acc x hx
    rw [List.foldl_cons]
    exact ih (f acc a) x (hf acc a x hx)

theorem foldl_mem_of_step {α β : Type} (f : List α → β → List α)
    (hf : ∀ acc b x, x ∈ acc → x ∈ f acc b)
    (l : List β) (b : β) (hb : b ∈ l) (x : α)
    (hx : ∀ acc, x ∈ f acc b) :
    ∀ acc, x ∈ l.foldl f acc := by
  induction l with
  | nil => cases hb
  | cons a t ih =>
    intro acc
    rw [List.foldl_cons]
    rcases List.mem_cons.mp hb with rfl | hb'
    · exact foldl_grow f hf t (f acc b) x (hx acc)
    · exact ih hb' (f acc a)

/-- C10: the referenced-component names collected by the generator are
exactly (as a set) the spec's union over all JSX values at any depth of
declared `componentRefs` and names extracted from the JSX source; and any
collected name other than the target component that the registry resolves
yields a named import with a relative path in the generated story. -/
theorem collectRefs_matches_spec_and_imports :
    (∀ (props : SerializedProps) (n : List Nat),
      n ∈ collectComponentRefs props [] ↔ n ∈ refsSpecFields props) ∧
    (∀ (data : StoryGenerationData) (R : Registry) (n p : List Nat),
      data.componentRegistry = some R →
      n ∈ collectComponentRefs data.props [] →
      ¬ n = data.meta.componentName →
      registryGet R n = some p →
      (js "\x7b " ++ n ++ js " \x7d",
        getRelativeImportPath (dirname data.meta.filePath) p) ∈
        (generateStory data).imports) := by
  constructor
  · intro props n
    rw [show collectComponentRefs props [] = collectRefsFields props [] from rfl,
      collectRefsFields_mem]
    simp
  · intro data R n p hreg hmem hne hget
    have himps : (generateStory data).imports =
        (collectComponentRefs data.props []).foldl
          (fun acc refName =>
            if refName == data.meta.componentName then acc
            else
              match registryGet R refName with
              | some refFilePath =>
                acc ++ [(js "\x7b " ++ refName ++ js " \x7d",
                  getRelativeImportPath (dirname data.meta.filePath) refFilePath)]
              | none => acc)
          [(if data.meta.isDefaultExport then data.meta.componentName
            else js "\x7b " ++ data.meta.componentName ++ js " \x7d",
            js "./" ++ basename data.meta.filePath (extname data.meta.filePath))] := by
      simp only [generateStory, hreg]
    rw [himps]
    exact foldl_mem_of_step _
      (by
        intro acc b x hx
        split
        · exact hx
        · split
          · exact List.mem_append_left _ hx
          · exact hx)
      _ n hmem _
      (by
        intro acc
        rw [if_neg (by simp [hne])]
        rw [hget]
        exact List.mem_append_right _ (by simp))
      _

/-- A generation request whose JSX source references `Card` without
declaring it in `componentRefs`. -/
def dataC10 : StoryGenerationData :=
  { meta := { componentName := js "Button", filePath := js "/proj/Button.tsx",
              relativeFilePath := js "Button.tsx", srcId := js "x",
              isDefaultExport := false },
    props := [(js "children", .jsxV (js "<Card>hi</Card>") [])],
    componentRegistry := some [(js "Card", js "/proj/Card.tsx")],
    storyName := none, existingContent := none }

set_option maxRecDepth 40000 in
/-- Witness for C10: `Card` appears only in the JSX source text, yet it
still receives a registry-resolved import. -/
theorem collectRefs_matches_spec_and_imports_witness :
    (js "\x7b " ++ js "Card" ++ js " \x7d",
      getRelativeImportPath (dirname (js "/proj/Button.tsx"))
        (js "/proj/Card.tsx")) ∈ (generateStory dataC10).imports :=
  collectRefs_matches_spec_and_imports.2 dataC10
    [(js "Card", js "/proj/Card.tsx")] (js "Card") (js "/proj/Card.tsx")
    rfl (by decide) (by decide) (by decide)

end SBDev

namespace SBDev

/-! ### The rewriter (`transform.ts`)

The babel AST is embedded structurally at the granularity the transform
inspects: expressions carry their sub-expressions, statements are the
top-level program forms the visitors distinguish.  `parse` and `generate`
are the external babel calls; `transform` takes the parse result and the
generator as arguments, a thrown JS exception in either being an
`Except.error`. -/

inductive Expr where
  | ident (name : List Nat)
  | strLit (s : List Nat)
  | boolLit (b : Bool)
  | otherLit
  | arrowFn (body : List Expr)
  | fnExpr (idName : Option (List Nat)) (body : List Expr)
  | call (callee : Expr) (args : List Expr)
  | jsxElement (children : List Expr)
  | jsxFragment (children : List Expr)
  | objLit (fields : List (List Nat × Expr))
deriving Repr

/-- A `VariableDeclarator`: `idName` is `some n` when the binding pattern
is the identifier `n`, and `init` the initializer if present. -/
structure Declarator where
  idName : Option (List Nat)
  init : Option Expr
deriving Repr

/-- The declaration of an `export default`: either a function declaration
or an expression. -/
inductive DefaultDecl where
  | fnDecl (idName : Option (List Nat)) (body : List Expr)
  | expr (e : Expr)
deriving Repr

inductive Stmt where
  | importDecl (source : List Nat)
  | funcDecl (idName : Option (List Nat)) (body : List Expr)
  | varDecl (decls : List Declarator)
  | exportDefault (decl : DefaultDecl)
  | exportNamedFn (idName : Option (List Nat)) (body : List Expr)
  | exportNamedVar (decls : List Declarator)
  | exportNamedBare
  | exprStmt (e : Expr)
deriving Repr

mutual

def exprHasJsx : Expr → Bool
  | .jsxElement _ => true
  | .jsxFragment _ => true
  | .arrowFn body => exprsHasJsx body
  | .fnExpr _ body => exprsHasJsx body
  | .call callee args => exprHasJsx callee || exprsHasJsx args
  | .objLit fields => fieldsHasJsx fields
  | _ => false

def exprsHasJsx : List Expr → Bool
  | [] => false
  | e :: es => exprHasJsx e || exprsHasJsx es

def fieldsHasJsx : List (List Nat × Expr) → Bool
  | [] => false
  | kv :: t => exprHasJsx kv.2 || fieldsHasJsx t

end

def optExprHasJsx : Option Expr → Bool
  | some e => exprHasJsx e
  | none => false

def declsHasJsx : List Declarator → Bool
  | [] => false
  | d :: t => optExprHasJsx d.init || declsHasJsx t

def stmtHasJsx : Stmt → Bool
  | .importDecl _ => false
  | .funcDecl _ body => exprsHasJsx body
  | .varDecl decls => declsHasJsx decls
  | .exportDefault (.fnDecl _ body) => exprsHasJsx body
  | .exportDefault (.expr e) => exprHasJsx e
  | .exportNamedFn _ body => exprsHasJsx body
  | .exportNamedVar decls => declsHasJsx decls
  | .exportNamedBare => false
  | .exprStmt e => exprHasJsx e

/-- The `JSXElement`/`JSXFragment` visitors: does any node of the file
contain JSX. -/
def progHasJsx : List Stmt → Bool
  | [] => false
  | st :: t => stmtHasJsx st || progHasJsx t

/-- The `ImportDeclaration` visitor's `hasReactImport` flag. -/
def progHasReactImport : List Stmt → Bool
  | [] => false
  | .importDecl src :: t =>
    src == js "react" || src == js "React" || progHasReactImport t
  | _ :: t => progHasReactImport t

/-- `name[0] === name[0].toUpperCase() && name[0] !== name[0].toLowerCase()`. -/
def headUpperStrict : List Nat → Bool
  | c :: _ => jsUpper c == c && !(jsLower c == c)
  | [] => false

/-- The weaker identifier check of `isComponentDeclaration`:
`name[0] === name[0].toUpperCase()` only. -/
def headUpperLoose : List Nat → Bool
  | c :: _ => jsUpper c == c
  | [] => false

def isComponentFunction : Option (List Nat) → Bool
  | some n => headUpperStrict n
  | none => false

def isMemoWrapper : Option Expr → Bool
  | some (.call (.ident cn) _) => cn == js "memo"
  | _ => false

def isForwardRefWrapper : Option Expr → Bool
  | some (.call (.ident cn) _) => cn == js "forwardRef"
  | _ => false

def isFnLikeInit : Expr → Bool
  | .arrowFn _ => true
  | .fnExpr _ _ => true
  | _ => false

def isComponentVariable (d : Declarator) : Bool :=
  match d.idName with
  | none => false
  | some n =>
    headUpperStrict n &&
      (match d.init with
       | none => false
       | some init =>
         isFnLikeInit init || isMemoWrapper (some init) ||
           isForwardRefWrapper (some init))

def declExpr : DefaultDecl → Option Expr
  | .fnDecl _ _ => none
  | .expr e => some e

def isComponentDeclaration : DefaultDecl → Bool
  | .fnDecl idN _ => isComponentFunction idN
  | .expr (.arrowFn _) => true
  | .expr (.fnExpr _ _) => true
  | .expr (.ident n) => headUpperLoose n
  | .expr (.call c args) =>
    isMemoWrapper (some (.call c args)) || isForwardRefWrapper (some (.call c args))
  | .expr _ => false

def getVariableName (d : Declarator) : List Nat :=
  match d.idName with
  | some n => n
  | none => js "AnonymousVariable"

def getDeclarationName : DefaultDecl → Option (List Nat)
  | .fnDecl idN _ => idN
  | .expr (.ident n) => some n
  | .expr (.call (.ident cn) args) =>
    if cn == js "memo" || cn == js "forwardRef" then
      match args.head? with
      | some (.arrowFn _) => some (js "AnonymousWrapped")
      | _ => none
    else none
  | _ => none

/-- Which mutated node a `componentsToWrap` entry points at (node identity
in the source, a statement/declarator position here). -/
inductive CompTarget where
  | fnStmt (i : Nat)
  | varDeclr (i d : Nat)
  | exportDefaultT (i : Nat)
  | exportNamedT (i : Nat)
deriving Repr

structure Comp where
  name : List Nat
  target : CompTarget
  isDefaultExport : Bool
  isMemo : Bool
  isForwardRef : Bool
deriving Repr

def topVarComps (i : Nat) : Nat → List Declarator → List Comp
  | _, [] => []
  | d, dec :: t =>
    (if isComponentVariable dec then
      [{ name := getVariableName dec, target := .varDeclr i d,
         isDefaultExport := false, isMemo := isMemoWrapper dec.init,
         isForwardRef := isForwardRefWrapper dec.init }]
     else []) ++ topVarComps i (d + 1) t

def namedVarComps (i : Nat) : List Declarator → List Comp
  | [] => []
  | dec :: t =>
    (if isComponentVariable dec then
      [{ name := getVariableName dec, target := .exportNamedT i,
         isDefaultExport := false, isMemo := isMemoWrapper dec.init,
         isForwardRef := isForwardRefWrapper dec.init }]
     else []) ++ namedVarComps i t

def compsOfStmt (i : Nat) : Stmt → List Comp
  | .funcDecl idN _ =>
    if isComponentFunction idN then
      [{ name := idN.getD (js "AnonymousFunction"), target := .fnStmt i,
         isDefaultExport := false, isMemo := false, isForwardRef := false }]
    else []
  | .varDecl decls => topVarComps i 0 decls
  | .exportDefault d =>
    if isComponentDeclaration d then
      [{ name := (getDeclarationName d).getD (js "DefaultExport"),
         target := .exportDefaultT i, isDefaultExport := true,
         isMemo := isMemoWrapper (declExpr d),
         isForwardRef := isForwardRefWrapper (declExpr d) }]
    else []
  | .exportNamedFn idN _ =>
    if isComponentFunction idN then
      [{ name := idN.getD (js "ExportedFunction"), target := .exportNamedT i,
         isDefaultExport := false, isMemo := false, isForwardRef := false }]
    else []
  | .exportNamedVar decls => namedVarComps i decls
  | _ => []

def collectCompsGo : Nat → List Stmt → List Comp
  | _, [] => []
  | i, st :: t => compsOfStmt i st ++ collectCompsGo (i + 1) t

/-- The `componentsToWrap` array after the traversal, in program order. -/
def componentsToWrap (prog : List Stmt) : List Comp := collectCompsGo 0 prog

def withHighlighter (orig meta : Expr) : Expr :=
  .call (.ident (js "withComponentHighlighter")) [orig, meta]

def metaObject (componentName filePath : List Nat) (isDefaultExport : Bool) :
    Expr :=
  .objLit [(js "componentName", .strLit componentName),
    (js "filePath", .strLit filePath),
    (js "sourceId", .strLit (sourceId filePath componentName)),
    (js "isDefaultExport", .boolLit isDefaultExport)]

def modifyAt {α : Type} (f : α → α) : Nat → List α → List α
  | _, [] => []
  | 0, a :: t => f a :: t
  | n + 1, a :: t => a :: modifyAt f n t

def wrapDeclarator (meta : Expr) (dec : Declarator) : Declarator :=
  match dec.init with
  | some e => { dec with init := some (withHighlighter e meta) }
  | none => dec

def defaultWrappable (c : Comp) : DefaultDecl → Bool
  | .fnDecl _ _ => true
  | .expr (.arrowFn _) => true
  | .expr (.fnExpr _ _) => true
  | .expr (.call _ _) => c.isMemo || c.isForwardRef
  | .expr _ => false

def defaultToExpr : DefaultDecl → Expr
  | .fnDecl idN body => .fnExpr idN body
  | .expr e => e

/-- `wrapComponent` for one collected entry. -/
def applyWrap (filePath : List Nat) (body : List Stmt) (c : Comp) : List Stmt :=
  let meta := metaObject c.name filePath c.isDefaultExport
  match c.target with
  | .fnStmt i =>
    modifyAt (fun st =>
      match st with
      | .funcDecl idN fb =>
        .varDecl [{ idName := idN,
                    init := some (withHighlighter (.fnExpr idN fb) meta) }]
      | st => st) i body
  | .varDeclr i d =>
    modifyAt (fun st =>
      match st with
      | .varDecl decls => .varDecl (modifyAt (wrapDeclarator meta) d decls)
      | st => st) i body
  | .exportDefaultT i =>
    modifyAt (fun st =>
      match st with
      | .exportDefault dd =>
        if defaultWrappable c dd then
          .exportDefault (.expr (withHighlighter (defaultToExpr dd) meta))
        else .exportDefault dd
      | st => st) i body
  | .exportNamedT i =>
    modifyAt (fun st =>
      match st with
      | .exportNamedFn idN fb =>
        .exportNamedVar [{ idName := idN,
                           init := some (withHighlighter (.fnExpr idN fb) meta) }]
      | .exportNamedVar decls => .exportNamedVar (decls.map (wrapDeclarator meta))
      | st => st) i body

def highlighterImport : Stmt :=
  .importDecl (js "virtual:component-highlighter/runtime")

def reactImport : Stmt := .importDecl (js "react")

/-- The AST mutation phase: wrap every collected component, then prepend
the React import when missing and the highlighter import. -/
def rewriteProgram (id : List Nat) (prog : List Stmt) : List Stmt :=
  let comps := componentsToWrap prog
  let wrapped := comps.foldl (applyWrap id) prog
  highlighterImport ::
    (if progHasReactImport prog then wrapped else reactImport :: wrapped)

/-- `transform(code, id)`: `parsed` is the babel parse result of `code`,
`gen` the code generator; the surrounding try/catch maps every thrown
error to the no-change sentinel `undefined` (`none`), and the
short-circuit returns `none` when the file has no JSX or no component
candidates. -/
def transform (parsed : Except (List Nat) (List Stmt))
    (gen : List Stmt → Except (List Nat) (List Nat)) (id : List Nat) :
    Option (List Nat) :=
  match parsed with
  | .error _ => none
  | .ok prog =>
    if !progHasJsx prog || (componentsToWrap prog).isEmpty then none
    else
      match gen (rewriteProgram id prog) with
      | .ok out => some out
      | .error _ => none

/-- C7: the rewriter returns the no-change sentinel whenever the parsed
file contains no JSX anywhere, or no component candidate was collected. -/
theorem transform_noChange_of_no_jsx_or_no_comps
    (prog : List Stmt) (gen : List Stmt → Except (List Nat) (List Nat))
    (id : List Nat)
    (h : progHasJsx prog = false ∨ componentsToWrap prog = []) :
    transform (.ok prog) gen id = none := by
  rcases h with h | h <;> simp [transform, h]

/-- Witness for C7: a file with an import and a plain call expression —
JSX-free — is left unchanged. -/
theorem transform_noChange_witness :
    transform (.ok [Stmt.importDecl (js "react"),
      Stmt.exprStmt (.call (.ident (js "doThing")) [])])
      (fun _ => .ok []) (js "/a.ts") = none :=
  transform_noChange_of_no_jsx_or_no_comps _ _ _ (Or.inl (by decide))

/-- C8: the rewriter never throws to its caller — a parse error yields the
no-change sentinel, and so does any generation error on the rewritten
program. -/
theorem transform_catches_errors
    (gen : List Stmt → Except (List Nat) (List Nat)) (id : List Nat) :
    (∀ e, transform (.error e) gen id = none) ∧
    (∀ prog : List Stmt, (∀ p, ∃ e, gen p = .error e) →
      transform (.ok prog) gen id = none) := by
  constructor
  · intro e; rfl
  · intro prog hgen
    simp only [transform]
    split
    · rfl
    · obtain ⟨e, he⟩ := hgen (rewriteProgram id prog)
      rw [he]

/-- A one-component JSX file for the C8 witness. -/
def progC8 : List Stmt :=
  [Stmt.funcDecl (some (js "Button")) [Expr.jsxElement []]]

/-- Witness for C8: a parse error and a generator that always fails both
yield the sentinel. -/
theorem transform_catches_errors_witness :
    transform (Except.error (js "SyntaxError: unexpected token"))
      (fun _ => Except.ok []) (js "/a.tsx") = none ∧
    transform (Except.ok progC8)
      (fun _ => Except.error (js "generate failed")) (js "/a.tsx") = none :=
  ⟨(transform_catches_errors _ _).1 _,
   (transform_catches_errors _ _).2 progC8 (fun _ => ⟨_, rfl⟩)⟩

end SBDev
